import Mathlib

/-!
# Verification of the glitch-realtime STOMP-subset protocol engine

Shallow embedding of `src/server-native-ws.js` (both the native-WebSocket
binding and the SockJS binding that the same file duplicates).  JavaScript
strings are modelled as `List Char`; a JavaScript `Map` is an insertion-ordered
association list (`List (key × value)`), a JavaScript `Set` an
insertion-ordered duplicate-free list.
-/

set_option maxRecDepth 4000
set_option linter.unusedSectionVars false
set_option linter.unusedVariables false

/-- JavaScript string (sequence of code points). -/
abbrev Str := List Char

/-- Shorthand turning a Lean string literal into the `Str` model. -/
def S (s : String) : Str := s.data

/-- The NUL frame terminator. -/
def nulChar : Char := '\x00'

section JsMap

variable {α : Type} {β : Type} [DecidableEq α]

/-- `Map.get` / object property read on an association list. -/
def mget : List (α × β) → α → Option β
  | [], _ => none
  | (a, b) :: t, k => if a = k then some b else mget t k

/-- `Map.set` / object property write: update in place when the key is
present (JavaScript keeps the original insertion position), append at the
end otherwise. -/
def mset : List (α × β) → α → β → List (α × β)
  | [], k, v => [(k, v)]
  | (a, b) :: t, k, v => if a = k then (k, v) :: t else (a, b) :: mset t k v

/-- `Map.delete`: drop the (unique, given nodup keys) entry for a key. -/
def mdel : List (α × β) → α → List (α × β)
  | [], _ => []
  | (a, b) :: t, k => if a = k then t else (a, b) :: mdel t k

/-- The keys of an association list, in insertion order. -/
def mkeys (m : List (α × β)) : List α := m.map Prod.fst

end JsMap

section JsSet

variable {α : Type} [DecidableEq α]

/-- `Set.add`: append the element unless already present. -/
def sadd (s : List α) (x : α) : List α := if x ∈ s then s else s ++ [x]

/-- `Set.delete`: remove the (unique, given nodup) occurrence of an element. -/
def sdel : List α → α → List α
  | [], _ => []
  | a :: t, x => if a = x then t else a :: sdel t x

end JsSet

/-! ## Frame codec (`parseFrames`, lines 150-181, and the frame-building part
of `sendFrame`, lines 55-62 of `src/server-native-ws.js`) -/

/-- `String.prototype.split` with a single-character separator: every
occurrence splits, empty segments are kept, `"".split(sep) = [""]`. -/
def splitChar (sep : Char) : Str → List Str
  | [] => [[]]
  | c :: rest =>
    let r := splitChar sep rest
    if c = sep then [] :: r
    else (c :: r.headD []) :: r.tail

/-- `String.prototype.split` with the two-character separator `"\n\n"`:
leftmost-first, non-overlapping. -/
def splitNN : List Char → List (List Char)
  | [] => [[]]
  | [c] => [[c]]
  | a :: b :: rest =>
    if a = '\n' ∧ b = '\n' then [] :: splitNN rest
    else
      let r := splitNN (b :: rest)
      (a :: r.headD []) :: r.tail

/-- `Array.prototype.join` with the separator `"\n\n"`. -/
def joinNN : List Str → Str
  | [] => []
  | [x] => x
  | x :: rest => x ++ '\n' :: '\n' :: joinNN rest

/-- The character class trimmed by `String.prototype.trim` (JavaScript
WhiteSpace and LineTerminator code points). -/
def jsWhitespace (c : Char) : Bool :=
  c = ' ' || c = '\t' || c = '\n' || c = '\r' || c = '\x0b' || c = '\x0c' ||
    c = ' ' || c = '﻿' || c = ' ' || c = ' '

/-- `String.prototype.trim`: drop leading and trailing whitespace. -/
def jsTrim (s : Str) : Str :=
  ((s.dropWhile jsWhitespace).reverse.dropWhile jsWhitespace).reverse

/-- `line.indexOf(':')` followed by the two slices of `parseFrames`:
`none` when the line holds no colon, otherwise the part before the first
colon and the part after it. -/
def firstColonSplit : Str → Option (Str × Str)
  | [] => none
  | c :: rest =>
    if c = ':' then some ([], rest)
    else (firstColonSplit rest).map (fun p => (c :: p.1, p.2))

/-- A decoded protocol unit (`{ command, headers, body }`). -/
structure Frame where
  command : Str
  headers : List (Str × Str)
  body : Str
  deriving DecidableEq

/-- The header-object construction of `parseFrames`: each `key:value` line is
split on the first colon, trimmed, and written with last-write-wins object
semantics; lines without a colon are ignored. -/
def buildHeaders (lines : List Str) : List (Str × Str) :=
  lines.foldl (fun hs line =>
    match firstColonSplit line with
    | none => hs
    | some p => mset hs (jsTrim p.1) (jsTrim p.2)) []

/-- One iteration of the `for (const raw of rawFrames)` loop of
`parseFrames`: possibly append one decoded frame. -/
def parseRaw (frames : List Frame) (raw : Str) : List Frame :=
  if raw = [] then frames
  else if raw = ['\n'] then frames
  else
    let parts := splitNN raw
    let headerLines := (splitChar '\n' (parts.headD [])).filter (fun l => l ≠ [])
    if headerLines = [] then frames
    else
      let command := jsTrim (headerLines.headD [])
      if command = [] then frames
      else
        frames ++ [{ command := command
                     headers := buildHeaders headerLines.tail
                     body := joinNN parts.tail }]

/-- `parseFrames` (native-WebSocket binding, lines 150-181). -/
def parseFrames (chunk : Str) : List Frame :=
  if chunk = [] then []
  else (splitChar nulChar chunk).foldl parseRaw []

/-- The wire string built by `sendFrame` before writing: command line, one
`key:value` line per header in insertion order, a blank line, the body, and
the NUL terminator. -/
def encodeWire (command : Str) (headers : List (Str × Str)) (body : Str) : Str :=
  command ++ '\n' ::
    (headers.foldl (fun acc p => acc ++ p.1 ++ ':' :: p.2 ++ ['\n']) []) ++
    '\n' :: body ++ [nulChar]

/-! ## Subscription registry (lines 45-131 of `src/server-native-ws.js`)

A connection is an opaque handle; identity is handle equality, so the model
uses `Nat`.  The `has`/`new Map()`/`new Set()` guards of the source are
rendered through `getD []`: a missing entry behaves as a freshly created
empty map or set, and the write-back `mset` places a previously missing key
at the end, exactly as `Map.set` does. -/

abbrev Conn := Nat

/-- The two shared indices `subscriptionsByConn` and
`subscribersByDestination`. -/
structure Registry where
  subscriptionsByConn : List (Conn × List (Str × Str))
  subscribersByDestination : List (Str × List (Conn × List Str))
  deriving DecidableEq

/-- Both indices start empty. -/
def emptyRegistry : Registry := ⟨[], []⟩

/-- `addSubscription` (lines 69-80). -/
def addSubscription (st : Registry) (ws : Conn) (subId destination : Str) :
    Registry :=
  let connSubs := (mget st.subscriptionsByConn ws).getD []
  let destinationSubscribers := (mget st.subscribersByDestination destination).getD []
  let subSet := (mget destinationSubscribers ws).getD []
  { subscriptionsByConn := mset st.subscriptionsByConn ws (mset connSubs subId destination)
    subscribersByDestination :=
      mset st.subscribersByDestination destination
        (mset destinationSubscribers ws (sadd subSet subId)) }

/-- `removeSubscription` (lines 82-107).  Every early `return` of the source
is kept, including the falsy check `if (!destination) return` that also
fires on an empty-string destination. -/
def removeSubscription (st : Registry) (ws : Conn) (subId : Str) : Registry :=
  match mget st.subscriptionsByConn ws with
  | none => st
  | some connSubs =>
    match mget connSubs subId with
    | none => st
    | some destination =>
      if destination = [] then st
      else
        let connSubs' := mdel connSubs subId
        let sbc :=
          if connSubs' = [] then mdel st.subscriptionsByConn ws
          else mset st.subscriptionsByConn ws connSubs'
        match mget st.subscribersByDestination destination with
        | none => { st with subscriptionsByConn := sbc }
        | some destinationSubscribers =>
          match mget destinationSubscribers ws with
          | none => { st with subscriptionsByConn := sbc }
          | some subSet =>
            let subSet' := sdel subSet subId
            let ds :=
              if subSet' = [] then mdel destinationSubscribers ws
              else mset destinationSubscribers ws subSet'
            let sbd :=
              if ds = [] then mdel st.subscribersByDestination destination
              else mset st.subscribersByDestination destination ds
            { subscriptionsByConn := sbc, subscribersByDestination := sbd }

/-- The body of the `for (const [subId, destination] of connSubs.entries())`
loop of `cleanupConnection`, acting on the destination index. -/
def cleanupStep (ws : Conn) (sbd : List (Str × List (Conn × List Str)))
    (p : Str × Str) : List (Str × List (Conn × List Str)) :=
  match mget sbd p.2 with
  | none => sbd
  | some destinationSubscribers =>
    let ds :=
      match mget destinationSubscribers ws with
      | none => destinationSubscribers
      | some subSet =>
        let subSet' := sdel subSet p.1
        if subSet' = [] then mdel destinationSubscribers ws
        else mset destinationSubscribers ws subSet'
    if ds = [] then mdel sbd p.2 else mset sbd p.2 ds

/-- `cleanupConnection` (lines 109-131): a single pass over the
connection's own subscription map, then removal of the connection key. -/
def cleanupConnection (st : Registry) (ws : Conn) : Registry :=
  match mget st.subscriptionsByConn ws with
  | none => st
  | some connSubs =>
    { subscriptionsByConn := mdel st.subscriptionsByConn ws
      subscribersByDestination := connSubs.foldl (cleanupStep ws) st.subscribersByDestination }

/-! ## Broadcast engine and outbound frames (lines 55-67, 133-148)

`ws.readyState === WebSocket.OPEN` is modelled by an open-state predicate
`isOpen : Conn → Bool`; `randomUUID()` by a generator `uuid : Nat → Str`
applied to a running counter, one fresh value per emitted frame.  An
emission is the pair (target connection, structured frame); the wire bytes
actually written are `encodeWire` of that frame. -/

/-- `sendFrame` (lines 55-67): emit one frame if the target transport is
open, nothing otherwise. -/
def sendFrame (isOpen : Conn → Bool) (ws : Conn) (command : Str)
    (headers : List (Str × Str)) (body : Str) : List (Conn × Frame) :=
  if isOpen ws then [(ws, { command := command, headers := headers, body := body })]
  else []

/-- `broadcast` (lines 133-148): for every subscriber entry of the
destination whose connection is open, one MESSAGE frame per subscription id,
each with a fresh message-id. -/
def broadcast (uuid : Nat → Str) (isOpen : Conn → Bool) (st : Registry)
    (destination body : Str) (ctr : Nat) : List (Conn × Frame) :=
  match mget st.subscribersByDestination destination with
  | none => []
  | some destinationSubscribers =>
    (destinationSubscribers.foldl
      (fun (acc : List (Conn × Frame) × Nat) entry =>
        if isOpen entry.1 then
          entry.2.foldl
            (fun (acc2 : List (Conn × Frame) × Nat) subId =>
              (acc2.1 ++
                sendFrame isOpen entry.1 (S "MESSAGE")
                  [(S "subscription", subId), (S "destination", destination),
                   (S "message-id", uuid acc2.2)] body,
               acc2.2 + 1))
            acc
        else acc)
      ([], ctr)).1

/-! ## Command dispatch (`handleFrame`, lines 183-230)

The result is the new registry, the emitted frames, whether `ws.close()`
was requested, and the advanced message-id counter.  JavaScript falsy
checks on header values (`!id`, `!destination`) accept both a missing
header and an empty-string header. -/

/-- `!x` on an optional header value. -/
def falsy (o : Option Str) : Bool := o.isNone || o = some []

/-- `handleFrame` (native-WebSocket binding). -/
def handleFrame (uuid : Nat → Str) (isOpen : Conn → Bool) (st : Registry)
    (ws : Conn) (f : Frame) (ctr : Nat) :
    Registry × List (Conn × Frame) × Bool × Nat :=
  if f.command = S "CONNECT" ∨ f.command = S "STOMP" then
    (st, sendFrame isOpen ws (S "CONNECTED") [(S "version", S "1.2")] [], false, ctr)
  else if f.command = S "SUBSCRIBE" then
    let id := mget f.headers (S "id")
    let destination := mget f.headers (S "destination")
    if falsy id || falsy destination then
      (st, sendFrame isOpen ws (S "ERROR")
        [(S "message", S "Subscription requires id and destination")]
        (S "Missing id or destination header"), false, ctr)
    else
      (addSubscription st ws (id.getD []) (destination.getD []), [], false, ctr)
  else if f.command = S "UNSUBSCRIBE" then
    let id := mget f.headers (S "id")
    if falsy id then (st, [], false, ctr)
    else (removeSubscription st ws (id.getD []), [], false, ctr)
  else if f.command = S "SEND" then
    let destination := mget f.headers (S "destination")
    if falsy destination then (st, [], false, ctr)
    else
      let out := broadcast uuid isOpen st (destination.getD []) f.body ctr
      (st, out, false, ctr + out.length)
  else if f.command = S "DISCONNECT" then
    (cleanupConnection st ws, [], true, ctr)
  else (st, [], false, ctr)

/-! ## SockJS binding (second half of the source file, lines 283-573)

The SockJS binding duplicates the registry, codec and dispatch code
verbatim; the two genuine differences are that its `sendFrame`
(lines 336-345) calls `conn.send(frame)` unconditionally, with no
open-state check, and consequently its `broadcast` (lines 411-424) writes
to every registered subscriber whether or not the transport is still
open. -/

/-- `addSubscription` (SockJS binding, lines 347-358). -/
def sockAddSubscription (st : Registry) (conn : Conn) (subId destination : Str) :
    Registry :=
  let connSubs := (mget st.subscriptionsByConn conn).getD []
  let destinationSubscribers := (mget st.subscribersByDestination destination).getD []
  let subSet := (mget destinationSubscribers conn).getD []
  { subscriptionsByConn := mset st.subscriptionsByConn conn (mset connSubs subId destination)
    subscribersByDestination :=
      mset st.subscribersByDestination destination
        (mset destinationSubscribers conn (sadd subSet subId)) }

/-- `removeSubscription` (SockJS binding, lines 360-385). -/
def sockRemoveSubscription (st : Registry) (conn : Conn) (subId : Str) : Registry :=
  match mget st.subscriptionsByConn conn with
  | none => st
  | some connSubs =>
    match mget connSubs subId with
    | none => st
    | some destination =>
      if destination = [] then st
      else
        let connSubs' := mdel connSubs subId
        let sbc :=
          if connSubs' = [] then mdel st.subscriptionsByConn conn
          else mset st.subscriptionsByConn conn connSubs'
        match mget st.subscribersByDestination destination with
        | none => { st with subscriptionsByConn := sbc }
        | some destinationSubscribers =>
          match mget destinationSubscribers conn with
          | none => { st with subscriptionsByConn := sbc }
          | some subSet =>
            let subSet' := sdel subSet subId
            let ds :=
              if subSet' = [] then mdel destinationSubscribers conn
              else mset destinationSubscribers conn subSet'
            let sbd :=
              if ds = [] then mdel st.subscribersByDestination destination
              else mset st.subscribersByDestination destination ds
            { subscriptionsByConn := sbc, subscribersByDestination := sbd }

/-- `cleanupConnection` (SockJS binding, lines 387-409). -/
def sockCleanupConnection (st : Registry) (conn : Conn) : Registry :=
  match mget st.subscriptionsByConn conn with
  | none => st
  | some connSubs =>
    { subscriptionsByConn := mdel st.subscriptionsByConn conn
      subscribersByDestination := connSubs.foldl (cleanupStep conn) st.subscribersByDestination }

/-- `sendFrame` (SockJS binding, lines 336-345): `conn.send(frame)` with no
open-state guard — the frame is written unconditionally. -/
def sockSendFrame (conn : Conn) (command : Str)
    (headers : List (Str × Str)) (body : Str) : List (Conn × Frame) :=
  [(conn, { command := command, headers := headers, body := body })]

/-- `broadcast` (SockJS binding, lines 411-424): no `readyState` check. -/
def sockBroadcast (uuid : Nat → Str) (st : Registry)
    (destination body : Str) (ctr : Nat) : List (Conn × Frame) :=
  match mget st.subscribersByDestination destination with
  | none => []
  | some destinationSubscribers =>
    (destinationSubscribers.foldl
      (fun (acc : List (Conn × Frame) × Nat) entry =>
        entry.2.foldl
          (fun (acc2 : List (Conn × Frame) × Nat) subId =>
            (acc2.1 ++
              sockSendFrame entry.1 (S "MESSAGE")
                [(S "subscription", subId), (S "destination", destination),
                 (S "message-id", uuid acc2.2)] body,
             acc2.2 + 1))
          acc)
      ([], ctr)).1

/-- `parseFrames` (SockJS binding, lines 426-457; textually identical to the
native one). -/
def sockParseFrames (chunk : Str) : List Frame :=
  if chunk = [] then []
  else (splitChar nulChar chunk).foldl parseRaw []

/-- `handleFrame` (SockJS binding, lines 459-506). -/
def sockHandleFrame (uuid : Nat → Str) (st : Registry)
    (conn : Conn) (f : Frame) (ctr : Nat) :
    Registry × List (Conn × Frame) × Bool × Nat :=
  if f.command = S "CONNECT" ∨ f.command = S "STOMP" then
    (st, sockSendFrame conn (S "CONNECTED") [(S "version", S "1.2")] [], false, ctr)
  else if f.command = S "SUBSCRIBE" then
    let id := mget f.headers (S "id")
    let destination := mget f.headers (S "destination")
    if falsy id || falsy destination then
      (st, sockSendFrame conn (S "ERROR")
        [(S "message", S "Subscription requires id and destination")]
        (S "Missing id or destination header"), false, ctr)
    else
      (sockAddSubscription st conn (id.getD []) (destination.getD []), [], false, ctr)
  else if f.command = S "UNSUBSCRIBE" then
    let id := mget f.headers (S "id")
    if falsy id then (st, [], false, ctr)
    else (sockRemoveSubscription st conn (id.getD []), [], false, ctr)
  else if f.command = S "SEND" then
    let destination := mget f.headers (S "destination")
    if falsy destination then (st, [], false, ctr)
    else
      let out := sockBroadcast uuid st (destination.getD []) f.body ctr
      (st, out, false, ctr + out.length)
  else if f.command = S "DISCONNECT" then
    (sockCleanupConnection st conn, [], true, ctr)
  else (st, [], false, ctr)

/-! ## Registry invariants (spec section 3, I1-I3) and reachability -/

/-- Index well-formedness: no duplicate keys in either index, inner maps, or
subscription-id sets.  This is what `Map`/`Set` guarantee structurally. -/
def KeysOK (st : Registry) : Prop :=
  (mkeys st.subscriptionsByConn).Nodup ∧
  (∀ ws cm, mget st.subscriptionsByConn ws = some cm → (mkeys cm).Nodup) ∧
  (mkeys st.subscribersByDestination).Nodup ∧
  (∀ d dm, mget st.subscribersByDestination d = some dm →
    (mkeys dm).Nodup ∧ ∀ ws ss, mget dm ws = some ss → ss.Nodup)

/-- I1, forward direction: every `(connection, subId)` pair of the
connection index has a matching back-link in the destination index. -/
def I1fwd (st : Registry) : Prop :=
  ∀ ws cm subId d, mget st.subscriptionsByConn ws = some cm →
    mget cm subId = some d →
    ∃ dm ss, mget st.subscribersByDestination d = some dm ∧
      mget dm ws = some ss ∧ subId ∈ ss

/-- I1, converse direction: every `(connection, subId)` pair of the
destination index is backed by the connection index. -/
def I1bwd (st : Registry) : Prop :=
  ∀ d dm ws ss subId, mget st.subscribersByDestination d = some dm →
    mget dm ws = some ss → subId ∈ ss →
    ∃ cm, mget st.subscriptionsByConn ws = some cm ∧ mget cm subId = some d

/-- I2: a destination key exists in the destination index only with at
least one registered `(connection, subId)` pair (no empty entries). -/
def I2 (st : Registry) : Prop :=
  ∀ d dm, mget st.subscribersByDestination d = some dm →
    dm ≠ [] ∧ ∀ ws ss, mget dm ws = some ss → ss ≠ []

/-- I3: a connection key exists in the connection index only with at least
one active subscription. -/
def I3 (st : Registry) : Prop :=
  ∀ ws cm, mget st.subscriptionsByConn ws = some cm → cm ≠ []

/-- All registry invariants together. -/
def RegistryInv (st : Registry) : Prop :=
  KeysOK st ∧ I1fwd st ∧ I1bwd st ∧ I2 st ∧ I3 st

/-- Registry states reachable from empty indices by the three registry
operations, where `AddSubscription` is only applied to a pair that is fresh
or already mapped to the same destination (re-mapping a live pair to a
different destination is exactly the case `addSubscription` handles
inconsistently; see the C1 analysis). -/
inductive Reach : Registry → Prop where
  | empty : Reach emptyRegistry
  | add {st : Registry} (ws : Conn) (subId destination : Str) :
      Reach st →
      (∀ cm d0, mget st.subscriptionsByConn ws = some cm →
        mget cm subId = some d0 → d0 = destination) →
      Reach (addSubscription st ws subId destination)
  | remove {st : Registry} (ws : Conn) (subId : Str) :
      Reach st → Reach (removeSubscription st ws subId)
  | cleanup {st : Registry} (ws : Conn) :
      Reach st → Reach (cleanupConnection st ws)

/-! ## Specification-side descriptions of the broadcast fan-out -/

/-- The `(connection, subId)` pairs of one destination entry whose
connection passes the open-state check, in iteration order. -/
def openPairs (isOpen : Conn → Bool) (dm : List (Conn × List Str)) :
    List (Conn × Str) :=
  (dm.map (fun entry =>
    if isOpen entry.1 then entry.2.map (fun subId => (entry.1, subId)) else [])).flatten

/-- All `(connection, subId)` pairs of one destination entry, in iteration
order. -/
def allPairs (dm : List (Conn × List Str)) : List (Conn × Str) :=
  (dm.map (fun entry => entry.2.map (fun subId => (entry.1, subId)))).flatten

/-- One MESSAGE frame per pair, message-ids drawn from consecutive
generator states. -/
def fanout (uuid : Nat → Str) (destination body : Str) :
    List (Conn × Str) → Nat → List (Conn × Frame)
  | [], _ => []
  | p :: rest, ctr =>
    (p.1, { command := S "MESSAGE"
            headers := [(S "subscription", p.2), (S "destination", destination),
                        (S "message-id", uuid ctr)]
            body := body }) :: fanout uuid destination body rest (ctr + 1)

/-- The message-id header values of a list of emissions. -/
def messageIds (out : List (Conn × Frame)) : List (Option Str) :=
  out.map (fun e => mget e.2.headers (S "message-id"))

/-- The header mapping produced by decoding an encoded header list:
keys and values trimmed, last write wins. -/
def trimHeaders (h : List (Str × Str)) : List (Str × Str) :=
  h.foldl (fun hs p => mset hs (jsTrim p.1) (jsTrim p.2)) []

/-- Safety condition on the text left of the header-terminating blank line:
no two consecutive newlines and no trailing newline. -/
def headerSafe : Str → Bool
  | [] => true
  | [c] => decide (c ≠ '\n')
  | a :: b :: rest => (!(a = '\n' && b = '\n')) && headerSafe (b :: rest)

/-! ## Encoding structure -/

/-- One encoded header line. -/
def headerLine (p : Str × Str) : Str := p.1 ++ ':' :: p.2

/-- `Array.prototype.join('\n')`. -/
def joinNL : List Str → Str
  | [] => []
  | [x] => x
  | x :: rest => x ++ '\n' :: joinNL rest

/-- The text before the header-terminating blank line of an encoded frame. -/
def headerA (c : Str) (h : List (Str × Str)) : Str :=
  joinNL (c :: h.map headerLine)

/-! ## Well-formedness conditions for encoded frames -/

/-- Conditions under which a command string survives the decoder intact. -/
@[reducible] def WfCommand (c : Str) : Prop :=
  c ≠ [] ∧ '\n' ∉ c ∧ nulChar ∉ c ∧ jsTrim c = c

/-- Conditions under which an encoded header list survives the decoder
(modulo trimming): non-empty keys, no newline / NUL in keys or values, no
colon in keys. -/
@[reducible] def WfHeaders (h : List (Str × Str)) : Prop :=
  ∀ p ∈ h, p.1 ≠ [] ∧ '\n' ∉ p.1 ∧ ':' ∉ p.1 ∧ nulChar ∉ p.1 ∧
    '\n' ∉ p.2 ∧ nulChar ∉ p.2

theorem headerSafe_single {p : Str} (hne : p ≠ []) (hnl : '\n' ∉ p) :
    headerSafe p = true := by
  induction p with
  | nil => exact absurd rfl hne
  | cons a t ih =>
    simp only [List.mem_cons] at hnl
    push_neg at hnl
    cases t with
    | nil =>
      show decide (a ≠ '\n') = true
      exact decide_eq_true (fun hh => hnl.1 hh.symm)
    | cons a2 t2 =>
      show ((!(a = '\n' && a2 = '\n')) && headerSafe (a2 :: t2)) = true
      rw [Bool.and_eq_true]
      refine ⟨?_, ih (by simp) hnl.2⟩
      have : ¬a = '\n' := fun hh => hnl.1 hh.symm
      simp [this]

/-- The concrete injective message-id generator used by the witnesses. -/
def uuidModel (n : Nat) : Str := List.replicate n 'u'

/-! ## Invariant preservation: cleanupConnection -/

/-- Well-formedness of a destination index on its own. -/
def DestOK (sbd : List (Str × List (Conn × List Str))) : Prop :=
  (mkeys sbd).Nodup ∧ ∀ d dm, mget sbd d = some dm →
    (mkeys dm).Nodup ∧ ∀ w ss, mget dm w = some ss → ss.Nodup

/-- No empty entries in a destination index. -/
def DestNonempty (sbd : List (Str × List (Conn × List Str))) : Prop :=
  ∀ d dm, mget sbd d = some dm → dm ≠ [] ∧ ∀ w ss, mget dm w = some ss → ss ≠ []

/-- The lookup chains of every connection other than `ws` agree between two
destination indices. -/
def AgreesExcept (ws : Conn) (sbd0 sbd : List (Str × List (Conn × List Str))) : Prop :=
  ∀ d ws', ws ≠ ws' →
    (mget sbd d).bind (fun dm => mget dm ws') =
      (mget sbd0 d).bind (fun dm => mget dm ws')

/-- Every subscription id of `ws` still present in the destination index is
listed (with its destination) in the remaining portion of the connection's
subscription map. -/
def CoveredBy (ws : Conn) (sbd : List (Str × List (Conn × List Str)))
    (L : List (Str × Str)) : Prop :=
  ∀ d dm ss, mget sbd d = some dm → mget dm ws = some ss →
    ∀ s ∈ ss, mget L s = some d

section JsMapLemmas

variable {α : Type} {β : Type} [DecidableEq α]

@[simp] theorem mget_nil (k : α) : mget ([] : List (α × β)) k = none := rfl

@[simp] theorem mkeys_nil : mkeys ([] : List (α × β)) = [] := rfl

@[simp] theorem mkeys_cons (a : α) (b : β) (t : List (α × β)) :
    mkeys ((a, b) :: t) = a :: mkeys t := rfl

theorem mget_mset (m : List (α × β)) (k : α) (v : β) (k' : α) :
    mget (mset m k v) k' = if k = k' then some v else mget m k' := by
  induction m with
  | nil => simp [mset, mget]
  | cons p t ih =>
    obtain ⟨a, b⟩ := p
    simp only [mset]
    by_cases hak : a = k
    · subst hak
      simp only [if_pos rfl]
      by_cases h : a = k'
      · subst h; simp [mget]
      · simp [mget, h]
    · simp only [if_neg hak, mget, ih]
      by_cases h : a = k'
      · subst h
        have hka : ¬k = a := fun hh => hak hh.symm
        simp [hka]
      · simp [h]

@[simp] theorem mget_mset_self (m : List (α × β)) (k : α) (v : β) :
    mget (mset m k v) k = some v := by simp [mget_mset]

theorem mget_mset_ne (m : List (α × β)) (k : α) (v : β) {k' : α} (h : k ≠ k') :
    mget (mset m k v) k' = mget m k' := by simp [mget_mset, h]

theorem mget_mdel_ne (m : List (α × β)) (k : α) {k' : α} (h : k ≠ k') :
    mget (mdel m k) k' = mget m k' := by
  induction m with
  | nil => simp [mdel]
  | cons p t ih =>
    obtain ⟨a, b⟩ := p
    simp only [mdel]
    by_cases hak : a = k
    · subst hak
      have hk' : ¬a = k' := fun hh => h (hh ▸ rfl)
      simp [mget, hk']
    · simp only [if_neg hak, mget, ih]

theorem mget_eq_none_of_not_mem_mkeys {m : List (α × β)} {k : α} :
    k ∉ mkeys m → mget m k = none := by
  induction m with
  | nil => intro _; rfl
  | cons p t ih =>
    intro h
    obtain ⟨a, b⟩ := p
    simp only [mkeys_cons, List.mem_cons] at h
    push_neg at h
    have hak : ¬a = k := fun hh => h.1 hh.symm
    simp [mget, hak, ih h.2]

theorem mem_mkeys_of_mget {m : List (α × β)} {k : α} {v : β}
    (h : mget m k = some v) : k ∈ mkeys m := by
  by_contra hk
  rw [mget_eq_none_of_not_mem_mkeys hk] at h
  exact Option.noConfusion h

theorem mget_mdel_self {m : List (α × β)} (k : α) :
    (mkeys m).Nodup → mget (mdel m k) k = none := by
  induction m with
  | nil => intro _; rfl
  | cons p t ih =>
    intro hnd
    obtain ⟨a, b⟩ := p
    simp only [mkeys_cons, List.nodup_cons] at hnd
    simp only [mdel]
    by_cases hak : a = k
    · subst hak
      rw [if_pos rfl]
      exact mget_eq_none_of_not_mem_mkeys hnd.1
    · simp [mget, hak, ih hnd.2]

theorem mget_mdel {m : List (α × β)} (hnd : (mkeys m).Nodup) (k k' : α) :
    mget (mdel m k) k' = if k = k' then none else mget m k' := by
  by_cases h : k = k'
  · subst h
    rw [if_pos rfl]
    exact mget_mdel_self k hnd
  · rw [if_neg h]
    exact mget_mdel_ne m k h

theorem mkeys_mset_of_mem {m : List (α × β)} {k : α} (v : β) :
    k ∈ mkeys m → mkeys (mset m k v) = mkeys m := by
  induction m with
  | nil => intro h; simp at h
  | cons p t ih =>
    intro h
    obtain ⟨a, b⟩ := p
    simp only [mset]
    by_cases hak : a = k
    · subst hak; simp
    · simp only [mkeys_cons, List.mem_cons] at h
      rcases h with h | h
      · exact absurd h.symm hak
      · simp [if_neg hak, ih h]

theorem mkeys_mset_of_not_mem {m : List (α × β)} {k : α} (v : β) :
    k ∉ mkeys m → mkeys (mset m k v) = mkeys m ++ [k] := by
  induction m with
  | nil => intro _; simp [mset]
  | cons p t ih =>
    intro h
    obtain ⟨a, b⟩ := p
    simp only [mkeys_cons, List.mem_cons] at h
    push_neg at h
    have hak : ¬a = k := fun hh => h.1 hh.symm
    simp [mset, hak, ih h.2]

theorem nodup_mkeys_mset {m : List (α × β)} (hnd : (mkeys m).Nodup) (k : α) (v : β) :
    (mkeys (mset m k v)).Nodup := by
  by_cases h : k ∈ mkeys m
  · rwa [mkeys_mset_of_mem v h]
  · rw [mkeys_mset_of_not_mem v h]
    rw [List.nodup_append_comm]
    simpa using ⟨h, hnd⟩

theorem mdel_sublist (m : List (α × β)) (k : α) : (mdel m k).Sublist m := by
  induction m with
  | nil => simp [mdel]
  | cons p t ih =>
    obtain ⟨a, b⟩ := p
    simp only [mdel]
    by_cases hak : a = k
    · simp [hak]
    · simp only [if_neg hak]
      exact ih.cons₂ _

theorem nodup_mkeys_mdel {m : List (α × β)} (hnd : (mkeys m).Nodup) (k : α) :
    (mkeys (mdel m k)).Nodup :=
  ((mdel_sublist m k).map Prod.fst).nodup hnd

theorem mset_eq_self {m : List (α × β)} {k : α} {v : β} :
    mget m k = some v → mset m k v = m := by
  induction m with
  | nil => intro h; simp [mget] at h
  | cons p t ih =>
    intro h
    obtain ⟨a, b⟩ := p
    simp only [mset]
    by_cases hak : a = k
    · subst hak
      simp only [mget] at h
      simp at h
      simp [h]
    · simp only [mget, if_neg hak] at h
      simp [if_neg hak, ih h]

theorem mset_ne_nil (m : List (α × β)) (k : α) (v : β) : mset m k v ≠ [] := by
  cases m with
  | nil => simp [mset]
  | cons p t =>
    obtain ⟨a, b⟩ := p
    simp only [mset]
    by_cases hak : a = k <;> simp [hak]

theorem mget_of_mdel_eq_nil {m : List (α × β)} {k : α} (h : mdel m k = [])
    {k' : α} (hne : k ≠ k') : mget m k' = none := by
  rw [← mget_mdel_ne m k hne, h]; rfl

end JsMapLemmas

section JsSetLemmas

variable {α : Type} [DecidableEq α]

theorem sadd_ne_nil (s : List α) (x : α) : sadd s x ≠ [] := by
  unfold sadd
  by_cases h : x ∈ s
  · simp only [if_pos h]
    rintro rfl; simp at h
  · simp [if_neg h]

theorem mem_sadd {s : List α} {x y : α} : y ∈ sadd s x ↔ y ∈ s ∨ y = x := by
  unfold sadd
  by_cases h : x ∈ s
  · simp only [if_pos h]
    constructor
    · exact Or.inl
    · rintro (hy | rfl) <;> assumption
  · simp [if_neg h]

theorem nodup_sadd {s : List α} (hnd : s.Nodup) (x : α) : (sadd s x).Nodup := by
  unfold sadd
  by_cases h : x ∈ s
  · simpa [if_pos h]
  · simp only [if_neg h]
    rw [List.nodup_append_comm]
    simpa using ⟨h, hnd⟩

theorem sdel_sublist (s : List α) (x : α) : (sdel s x).Sublist s := by
  induction s with
  | nil => simp [sdel]
  | cons a t ih =>
    simp only [sdel]
    by_cases hax : a = x
    · simp [hax]
    · simp only [if_neg hax]
      exact ih.cons₂ _

theorem nodup_sdel {s : List α} (hnd : s.Nodup) (x : α) : (sdel s x).Nodup :=
  (sdel_sublist s x).nodup hnd

theorem mem_of_mem_sdel {s : List α} {x y : α} (h : y ∈ sdel s x) : y ∈ s :=
  (sdel_sublist s x).mem h

theorem not_mem_sdel_self {s : List α} (x : α) :
    s.Nodup → x ∉ sdel s x := by
  induction s with
  | nil => intro _; simp [sdel]
  | cons a t ih =>
    intro hnd
    simp only [List.nodup_cons] at hnd
    simp only [sdel]
    by_cases hax : a = x
    · subst hax; simpa using hnd.1
    · simp only [if_neg hax, List.mem_cons]
      rintro (rfl | h)
      · exact hax rfl
      · exact ih hnd.2 h

theorem mem_sdel_of_ne {s : List α} {x y : α} (hy : y ∈ s) (hne : y ≠ x) :
    y ∈ sdel s x := by
  induction s with
  | nil => simp at hy
  | cons a t ih =>
    simp only [List.mem_cons] at hy
    simp only [sdel]
    by_cases hax : a = x
    · subst hax
      rcases hy with rfl | hy
      · exact absurd rfl hne
      · simpa [if_pos rfl] using hy
    · simp only [if_neg hax, List.mem_cons]
      rcases hy with rfl | hy
      · exact Or.inl rfl
      · exact Or.inr (ih hy)

theorem mem_sdel_iff {s : List α} (hnd : s.Nodup) {x y : α} :
    y ∈ sdel s x ↔ y ∈ s ∧ y ≠ x := by
  constructor
  · intro h
    refine ⟨mem_of_mem_sdel h, ?_⟩
    rintro rfl
    exact not_mem_sdel_self _ hnd h
  · rintro ⟨hy, hne⟩
    exact mem_sdel_of_ne hy hne

end JsSetLemmas

example :
    parseFrames (encodeWire (S "SEND") [(S "destination", S "news")] (S "Hello")) =
      [{ command := S "SEND", headers := [(S "destination", S "news")],
         body := S "Hello" }] := by decide

example :
    parseFrames (S "SUBSCRIBE\nid: 1 \ndestination:a:b\n\n\x00") =
      [{ command := S "SUBSCRIBE",
         headers := [(S "id", S "1"), (S "destination", S "a:b")],
         body := [] }] := by decide

/-! ## Fan-out characterization lemmas -/

theorem mget_message_id (a bb c : Str) :
    mget [(S "subscription", a), (S "destination", bb), (S "message-id", c)]
      (S "message-id") = some c := by rfl

theorem fanout_append (uuid : Nat → Str) (d b : Str) (l1 l2 : List (Conn × Str))
    (ctr : Nat) :
    fanout uuid d b (l1 ++ l2) ctr =
      fanout uuid d b l1 ctr ++ fanout uuid d b l2 (ctr + l1.length) := by
  induction l1 generalizing ctr with
  | nil => simp [fanout]
  | cons p rest ih =>
    simp only [List.cons_append, fanout, List.length_cons,
      show ctr + (rest.length + 1) = ctr + 1 + rest.length from by omega]
    congr 1
    exact ih (ctr + 1)

theorem length_fanout (uuid : Nat → Str) (d b : Str) (l : List (Conn × Str))
    (ctr : Nat) : (fanout uuid d b l ctr).length = l.length := by
  induction l generalizing ctr with
  | nil => rfl
  | cons p rest ih => simp [fanout, ih]

theorem broadcast_inner_fold (uuid : Nat → Str) (isOpen : Conn → Bool)
    (d b : Str) (ws : Conn) (hws : isOpen ws = true) (subIds : List Str)
    (acc : List (Conn × Frame)) (k : Nat) :
    subIds.foldl
      (fun (acc2 : List (Conn × Frame) × Nat) subId =>
        (acc2.1 ++
          sendFrame isOpen ws (S "MESSAGE")
            [(S "subscription", subId), (S "destination", d),
             (S "message-id", uuid acc2.2)] b,
         acc2.2 + 1)) (acc, k) =
      (acc ++ fanout uuid d b (subIds.map (fun subId => (ws, subId))) k,
       k + subIds.length) := by
  induction subIds generalizing acc k with
  | nil => simp [fanout]
  | cons s rest ih =>
    simp only [List.foldl_cons]
    rw [ih]
    simp only [sendFrame, hws, if_true, List.map_cons, fanout, List.length_cons,
      Prod.mk.injEq]
    constructor
    · simp
    · omega

theorem broadcast_outer_fold (uuid : Nat → Str) (isOpen : Conn → Bool)
    (d b : Str) (dm : List (Conn × List Str)) (acc : List (Conn × Frame))
    (k : Nat) :
    dm.foldl
      (fun (acc : List (Conn × Frame) × Nat) entry =>
        if isOpen entry.1 then
          entry.2.foldl
            (fun (acc2 : List (Conn × Frame) × Nat) subId =>
              (acc2.1 ++
                sendFrame isOpen entry.1 (S "MESSAGE")
                  [(S "subscription", subId), (S "destination", d),
                   (S "message-id", uuid acc2.2)] b,
               acc2.2 + 1))
            acc
        else acc) (acc, k) =
      (acc ++ fanout uuid d b (openPairs isOpen dm) k,
       k + (openPairs isOpen dm).length) := by
  induction dm generalizing acc k with
  | nil => simp [openPairs, fanout]
  | cons entry rest ih =>
    obtain ⟨ws, subIds⟩ := entry
    simp only [List.foldl_cons]
    by_cases hws : isOpen ws = true
    · rw [if_pos hws, broadcast_inner_fold uuid isOpen d b ws hws, ih]
      simp only [openPairs, List.map_cons, List.flatten_cons, hws, if_true]
      rw [fanout_append]
      simp only [List.length_map, List.length_append, Prod.mk.injEq]
      constructor
      · simp
      · omega
    · rw [if_neg hws, ih]
      have hws' : isOpen ws = false := by simpa using hws
      simp [openPairs, hws']

theorem broadcast_eq_fanout (uuid : Nat → Str) (isOpen : Conn → Bool)
    (st : Registry) (d b : Str) (ctr : Nat) :
    broadcast uuid isOpen st d b ctr =
      fanout uuid d b
        (openPairs isOpen ((mget st.subscribersByDestination d).getD [])) ctr := by
  unfold broadcast
  cases h : mget st.subscribersByDestination d with
  | none => simp [openPairs, fanout]
  | some dm =>
    simp only [Option.getD_some]
    rw [broadcast_outer_fold]
    simp

theorem sock_inner_fold (uuid : Nat → Str) (d b : Str) (ws : Conn)
    (subIds : List Str) (acc : List (Conn × Frame)) (k : Nat) :
    subIds.foldl
      (fun (acc2 : List (Conn × Frame) × Nat) subId =>
        (acc2.1 ++
          sockSendFrame ws (S "MESSAGE")
            [(S "subscription", subId), (S "destination", d),
             (S "message-id", uuid acc2.2)] b,
         acc2.2 + 1)) (acc, k) =
      (acc ++ fanout uuid d b (subIds.map (fun subId => (ws, subId))) k,
       k + subIds.length) := by
  induction subIds generalizing acc k with
  | nil => simp [fanout]
  | cons s rest ih =>
    simp only [List.foldl_cons]
    rw [ih]
    simp only [sockSendFrame, List.map_cons, fanout, List.length_cons,
      Prod.mk.injEq]
    constructor
    · simp
    · omega

theorem sockBroadcast_eq_fanout (uuid : Nat → Str) (st : Registry)
    (d b : Str) (ctr : Nat) :
    sockBroadcast uuid st d b ctr =
      fanout uuid d b
        (allPairs ((mget st.subscribersByDestination d).getD [])) ctr := by
  unfold sockBroadcast
  cases h : mget st.subscribersByDestination d with
  | none => simp [allPairs, fanout]
  | some dm =>
    simp only [Option.getD_some]
    suffices hfold : ∀ (acc : List (Conn × Frame)) (k : Nat),
        dm.foldl
          (fun (acc : List (Conn × Frame) × Nat) entry =>
            entry.2.foldl
              (fun (acc2 : List (Conn × Frame) × Nat) subId =>
                (acc2.1 ++
                  sockSendFrame entry.1 (S "MESSAGE")
                    [(S "subscription", subId), (S "destination", d),
                     (S "message-id", uuid acc2.2)] b,
                 acc2.2 + 1))
              acc) (acc, k) =
          (acc ++ fanout uuid d b (allPairs dm) k,
           k + (allPairs dm).length) by
      rw [hfold]
      simp
    clear h
    induction dm with
    | nil => simp [allPairs, fanout]
    | cons entry rest ih =>
      intro acc k
      obtain ⟨ws, subIds⟩ := entry
      simp only [List.foldl_cons]
      rw [sock_inner_fold uuid d b ws, ih]
      simp only [allPairs, List.map_cons, List.flatten_cons]
      rw [fanout_append]
      simp only [List.length_map, List.length_append, Prod.mk.injEq]
      constructor
      · simp
      · omega

theorem messageIds_fanout (uuid : Nat → Str) (d b : Str)
    (pairs : List (Conn × Str)) (ctr : Nat) :
    messageIds (fanout uuid d b pairs ctr) =
      (List.range pairs.length).map (fun i => some (uuid (ctr + i))) := by
  induction pairs generalizing ctr with
  | nil => rfl
  | cons p rest ih =>
    simp only [fanout, messageIds, List.map_cons, List.length_cons,
      List.range_succ_eq_map, List.map_map, Nat.add_zero]
    rw [mget_message_id p.2 d (uuid ctr)]
    refine congrArg (fun t => some (uuid ctr) :: t) ?_
    rw [show List.map (fun e => mget e.2.headers (S "message-id"))
        (fanout uuid d b rest (ctr + 1)) =
        messageIds (fanout uuid d b rest (ctr + 1)) from rfl, ih]
    refine List.map_congr_left ?_
    intro i _
    simp only [Function.comp_apply]
    congr 2
    omega

theorem nodup_messageIds_fanout (uuid : Nat → Str)
    (huuid : Function.Injective uuid) (d b : Str)
    (pairs : List (Conn × Str)) (ctr : Nat) :
    (messageIds (fanout uuid d b pairs ctr)).Nodup := by
  rw [messageIds_fanout]
  refine List.Nodup.map ?_ (List.nodup_range _)
  intro i j hij
  have := huuid (Option.some.inj hij)
  omega

/-! ## Split/join lemmas for the codec -/

theorem splitNN_ne_nil (s : Str) : splitNN s ≠ [] := by
  induction s using splitNN.induct
  case case1 => simp [splitNN]
  case case2 => simp [splitNN]
  case case3 a b rest h ih => simp [splitNN, h]
  case case4 a b rest h ih => simp [splitNN, h]

theorem joinNN_cons (x : Str) (l : List Str) (hl : l ≠ []) :
    joinNN (x :: l) = x ++ '\n' :: '\n' :: joinNN l := by
  cases l with
  | nil => exact absurd rfl hl
  | cons y t => rfl

theorem joinNN_splitNN (s : Str) : joinNN (splitNN s) = s := by
  induction s using splitNN.induct
  case case1 => rfl
  case case2 => rfl
  case case3 a b rest h ih =>
    obtain ⟨rfl, rfl⟩ := h
    rw [show splitNN ('\n' :: '\n' :: rest) = [] :: splitNN rest from by
      simp [splitNN]]
    rw [joinNN_cons _ _ (splitNN_ne_nil rest)]
    simp [ih]
  case case4 a b rest h ih =>
    rw [show splitNN (a :: b :: rest) =
        (a :: (splitNN (b :: rest)).headD []) :: (splitNN (b :: rest)).tail from by
      simp [splitNN, h]]
    cases hr : splitNN (b :: rest) with
    | nil => exact absurd hr (splitNN_ne_nil _)
    | cons h0 t0 =>
      rw [hr] at ih
      cases t0 with
      | nil =>
        simp only [List.headD_cons, List.tail_cons, joinNN] at ih ⊢
        simp [ih]
      | cons z t1 =>
        simp only [List.headD_cons, List.tail_cons]
        rw [joinNN_cons _ _ (by simp)]
        rw [joinNN_cons _ _ (by simp)] at ih
        simp only [List.cons_append]
        rw [ih]

theorem splitNN_append {A : Str} (b : Str) (h : headerSafe A = true) :
    splitNN (A ++ '\n' :: '\n' :: b) = A :: splitNN b := by
  induction A using headerSafe.induct
  case case1 => simp [splitNN]
  case case2 c =>
    have hcne : c ≠ '\n' := by
      have h' : decide (c ≠ '\n') = true := h
      exact of_decide_eq_true h'
    have hc : ¬(c = '\n' ∧ ('\n' : Char) = '\n') := by
      intro hcc; exact hcne hcc.1
    simp [splitNN, hc, hcne]
  case case3 a a2 rest ih =>
    have h' : ((!(a = '\n' && a2 = '\n')) && headerSafe (a2 :: rest)) = true := h
    rw [Bool.and_eq_true] at h'
    have hcond : ¬(a = '\n' ∧ a2 = '\n') := by
      intro hcc
      obtain ⟨rfl, rfl⟩ := hcc
      simp at h'
    have ih' := ih h'.2
    simp only [List.cons_append] at ih' ⊢
    rw [show splitNN (a :: a2 :: (rest ++ '\n' :: '\n' :: b)) =
        (a :: (splitNN (a2 :: (rest ++ '\n' :: '\n' :: b))).headD []) ::
          (splitNN (a2 :: (rest ++ '\n' :: '\n' :: b))).tail from by
      simp [splitNN, hcond]]
    rw [ih']
    simp

theorem splitChar_not_mem {sep : Char} {s : Str} (h : sep ∉ s) :
    splitChar sep s = [s] := by
  induction s with
  | nil => rfl
  | cons c rest ih =>
    simp only [List.mem_cons] at h
    push_neg at h
    have hc : ¬c = sep := fun hh => h.1 hh.symm
    simp only [splitChar, if_neg hc, ih h.2]
    simp

theorem splitChar_append {sep : Char} {xs : Str} (h : sep ∉ xs) (ys : Str) :
    splitChar sep (xs ++ sep :: ys) = xs :: splitChar sep ys := by
  induction xs with
  | nil => simp [splitChar]
  | cons c rest ih =>
    simp only [List.mem_cons] at h
    push_neg at h
    have hc : ¬c = sep := fun hh => h.1 hh.symm
    rw [List.cons_append]
    rw [show splitChar sep (c :: (rest ++ sep :: ys)) =
        (c :: (splitChar sep (rest ++ sep :: ys)).headD []) ::
          (splitChar sep (rest ++ sep :: ys)).tail from by
      simp [splitChar, hc]]
    rw [ih h.2]
    simp

@[simp] theorem parseRaw_nil_raw (frames : List Frame) : parseRaw frames [] = frames := rfl

theorem parseFrames_nul_free {chunk : Str} (h1 : chunk ≠ []) (h2 : nulChar ∉ chunk) :
    parseFrames chunk = parseRaw [] chunk := by
  unfold parseFrames
  rw [if_neg h1, splitChar_not_mem h2]
  rfl

theorem parseFrames_single (content : Str) (h2 : nulChar ∉ content) :
    parseFrames (content ++ [nulChar]) = parseRaw [] content := by
  unfold parseFrames
  rw [if_neg (by simp), show content ++ [nulChar] = content ++ nulChar :: [] from rfl,
    splitChar_append h2]
  simp [splitChar]

theorem joinNL_cons (x : Str) (l : List Str) (hl : l ≠ []) :
    joinNL (x :: l) = x ++ '\n' :: joinNL l := by
  cases l with
  | nil => exact absurd rfl hl
  | cons y t => rfl

theorem foldl_append_flatten {γ : Type} (f : γ → Str) (l : List γ) (init : Str) :
    l.foldl (fun acc p => acc ++ f p) init = init ++ (l.map f).flatten := by
  induction l generalizing init with
  | nil => simp
  | cons p t ih => simp [ih, List.append_assoc]

theorem headerA_flatten (c : Str) (h : List (Str × Str)) :
    c ++ '\n' :: (h.map (fun p => headerLine p ++ ['\n'])).flatten =
      headerA c h ++ ['\n'] := by
  induction h generalizing c with
  | nil => simp [headerA, joinNL]
  | cons p t ih =>
    have step : headerA c (p :: t) = c ++ '\n' :: headerA (headerLine p) t := by
      unfold headerA
      rw [List.map_cons, joinNL_cons c _ (by simp)]
    rw [step, List.map_cons, List.flatten_cons]
    calc c ++ '\n' :: ((headerLine p ++ ['\n']) ++
            (t.map (fun p => headerLine p ++ ['\n'])).flatten)
        = c ++ '\n' :: (headerLine p ++
            '\n' :: (t.map (fun p => headerLine p ++ ['\n'])).flatten) := by
          simp [List.append_assoc]
      _ = c ++ '\n' :: (headerA (headerLine p) t ++ ['\n']) := by
          rw [ih (headerLine p)]
      _ = (c ++ '\n' :: headerA (headerLine p) t) ++ ['\n'] := by
          simp [List.append_assoc]

theorem encodeWire_structure (c : Str) (h : List (Str × Str)) (b : Str) :
    encodeWire c h b = (headerA c h ++ '\n' :: '\n' :: b) ++ [nulChar] := by
  unfold encodeWire
  rw [show (fun (acc : Str) (p : Str × Str) => acc ++ p.1 ++ ':' :: p.2 ++ ['\n']) =
      (fun (acc : Str) (p : Str × Str) => acc ++ (headerLine p ++ ['\n'])) from by
    funext acc p
    simp [headerLine]]
  rw [foldl_append_flatten (fun p => headerLine p ++ ['\n']) h []]
  rw [List.nil_append]
  rw [show c ++ '\n' :: (h.map (fun p => headerLine p ++ ['\n'])).flatten =
      headerA c h ++ ['\n'] from headerA_flatten c h]
  simp [List.append_assoc]

theorem headerSafe_cons_NL {x : Char} {t : Str} (hx : x ≠ '\n')
    (hs : headerSafe (x :: t) = true) : headerSafe ('\n' :: x :: t) = true := by
  show ((!(('\n' : Char) = '\n' && x = '\n')) && headerSafe (x :: t)) = true
  rw [Bool.and_eq_true]
  exact ⟨by simp [hx], hs⟩

theorem headerSafe_glue {p rest : Str} {x : Char} {t : Str}
    (hne : p ≠ []) (hnl : '\n' ∉ p) (hrest : rest = x :: t) (hx : x ≠ '\n')
    (hs : headerSafe rest = true) :
    headerSafe (p ++ '\n' :: rest) = true := by
  induction p with
  | nil => exact absurd rfl hne
  | cons a p' ih =>
    simp only [List.mem_cons] at hnl
    push_neg at hnl
    have ha : a ≠ '\n' := fun hh => hnl.1 hh.symm
    cases p' with
    | nil =>
      show ((!(a = '\n' && ('\n' : Char) = '\n')) && headerSafe ('\n' :: rest)) = true
      rw [Bool.and_eq_true]
      refine ⟨by simp [ha], ?_⟩
      subst hrest
      exact headerSafe_cons_NL hx hs
    | cons a2 p'' =>
      show ((!(a = '\n' && a2 = '\n')) &&
        headerSafe ((a2 :: p'') ++ '\n' :: rest)) = true
      rw [Bool.and_eq_true]
      refine ⟨by simp [ha], ih (by simp) hnl.2⟩

theorem joinNL_shape (pieces : List Str) (hne : pieces ≠ [])
    (hp : ∀ p ∈ pieces, p ≠ [] ∧ '\n' ∉ p) :
    headerSafe (joinNL pieces) = true ∧
      ∃ x t, joinNL pieces = x :: t ∧ x ≠ '\n' := by
  induction pieces with
  | nil => exact absurd rfl hne
  | cons q rest ih =>
    obtain ⟨hq, hqnl⟩ := hp q (by simp)
    cases rest with
    | nil =>
      refine ⟨headerSafe_single hq hqnl, ?_⟩
      cases q with
      | nil => exact absurd rfl hq
      | cons x t =>
        refine ⟨x, t, rfl, fun hh => ?_⟩
        exact hqnl (hh ▸ List.mem_cons_self x t)
    | cons q2 rest2 =>
      obtain ⟨ihs, x, t, hxt, hx⟩ := ih (by simp) (fun p hp2 => hp p (by simp [hp2]))
      rw [joinNL_cons q _ (by simp)]
      constructor
      · exact headerSafe_glue hq hqnl hxt hx ihs
      · cases q with
        | nil => exact absurd rfl hq
        | cons y yt =>
          refine ⟨y, yt ++ '\n' :: joinNL (q2 :: rest2), by simp, fun hh => ?_⟩
          exact hqnl (hh ▸ List.mem_cons_self y yt)

theorem splitChar_joinNL (pieces : List Str) (hne : pieces ≠ [])
    (hp : ∀ p ∈ pieces, '\n' ∉ p) :
    splitChar '\n' (joinNL pieces) = pieces := by
  induction pieces with
  | nil => exact absurd rfl hne
  | cons q rest ih =>
    cases rest with
    | nil => exact splitChar_not_mem (hp q (by simp))
    | cons q2 rest2 =>
      rw [joinNL_cons q _ (by simp)]
      rw [splitChar_append (hp q (by simp))]
      rw [ih (by simp) (fun p hp2 => hp p (by simp [hp2]))]

theorem not_mem_joinNL {c : Char} (pieces : List Str) (hc : c ≠ '\n')
    (hp : ∀ p ∈ pieces, c ∉ p) : c ∉ joinNL pieces := by
  induction pieces with
  | nil => simp [joinNL]
  | cons q rest ih =>
    cases rest with
    | nil => exact hp q (by simp)
    | cons q2 rest2 =>
      rw [joinNL_cons q _ (by simp)]
      simp only [List.mem_append, List.mem_cons]
      rintro (hin | hin | hin)
      · exact hp q (by simp) hin
      · exact hc hin
      · exact ih (fun p hp2 => hp p (by simp [hp2])) hin

theorem firstColonSplit_line {k v : Str} (hk : ':' ∉ k) :
    firstColonSplit (k ++ ':' :: v) = some (k, v) := by
  induction k with
  | nil => simp [firstColonSplit]
  | cons a t ih =>
    simp only [List.mem_cons] at hk
    push_neg at hk
    have ha : ¬a = ':' := fun hh => hk.1 hh.symm
    rw [List.cons_append]
    rw [show firstColonSplit (a :: (t ++ ':' :: v)) =
        (firstColonSplit (t ++ ':' :: v)).map (fun p => (a :: p.1, p.2)) from by
      simp [firstColonSplit, ha]]
    rw [ih hk.2]
    rfl

theorem buildHeaders_encoded (h : List (Str × Str))
    (hk : ∀ p ∈ h, ':' ∉ p.1) :
    buildHeaders (h.map headerLine) = trimHeaders h := by
  unfold buildHeaders trimHeaders
  suffices hgen : ∀ acc : List (Str × Str),
      (h.map headerLine).foldl (fun hs line =>
        match firstColonSplit line with
        | none => hs
        | some p => mset hs (jsTrim p.1) (jsTrim p.2)) acc =
      h.foldl (fun hs p => mset hs (jsTrim p.1) (jsTrim p.2)) acc by
    exact hgen []
  induction h with
  | nil => intro acc; rfl
  | cons p t ih =>
    intro acc
    simp only [List.map_cons, List.foldl_cons]
    rw [show firstColonSplit (headerLine p) = some (p.1, p.2) from
      firstColonSplit_line (hk p (by simp))]
    exact ih (fun q hq => hk q (by simp [hq])) _

/-! ## The decoder on one well-formed encoded frame -/

theorem parseRaw_encoded (c : Str) (h : List (Str × Str)) (b : Str)
    (hc : WfCommand c) (hh : WfHeaders h) :
    parseRaw [] (headerA c h ++ '\n' :: '\n' :: b) =
      [{ command := c, headers := trimHeaders h, body := b }] := by
  obtain ⟨hcne, hcnl, hcnul, hctrim⟩ := hc
  have hpieces : ∀ p ∈ c :: h.map headerLine, p ≠ [] ∧ '\n' ∉ p := by
    intro p hp
    rcases List.mem_cons.mp hp with rfl | hp
    · exact ⟨hcne, hcnl⟩
    · obtain ⟨q, hq, rfl⟩ := List.mem_map.mp hp
      obtain ⟨hq1, hq2, hq3, hq4, hq5, hq6⟩ := hh q hq
      refine ⟨by simp [headerLine], ?_⟩
      simp only [headerLine, List.mem_append, List.mem_cons]
      rintro (hin | hin | hin)
      · exact hq2 hin
      · exact absurd hin (by decide)
      · exact hq5 hin
  obtain ⟨hsafe, x, t, hxt, hx⟩ := joinNL_shape _ (by simp) hpieces
  have hxt' : headerA c h = x :: t := hxt
  have hcontent_ne : headerA c h ++ '\n' :: '\n' :: b ≠ [] := by
    rw [hxt']; simp
  have hcontent_nl : headerA c h ++ '\n' :: '\n' :: b ≠ ['\n'] := by
    rw [hxt', List.cons_append]
    intro hcc
    obtain ⟨h1, -⟩ := List.cons_eq_cons.mp hcc
    exact hx h1
  unfold parseRaw
  rw [if_neg hcontent_ne, if_neg hcontent_nl]
  rw [show headerA c h = joinNL (c :: h.map headerLine) from rfl]
  rw [splitNN_append b hsafe]
  simp only [List.headD_cons, List.tail_cons]
  rw [splitChar_joinNL _ (by simp) (fun p hp => (hpieces p hp).2)]
  rw [List.filter_eq_self.mpr (fun p hp => decide_eq_true (hpieces p hp).1)]
  rw [if_neg (by simp)]
  simp only [List.headD_cons, List.tail_cons]
  rw [hctrim, if_neg hcne]
  rw [buildHeaders_encoded h (fun p hp => (hh p hp).2.2.1), joinNN_splitNN b]
  simp

/-- Round trip on one frame: decoding the encoder output yields exactly one
frame, with the command intact, the headers trimmed, and the body intact. -/
theorem decode_encode (c : Str) (h : List (Str × Str)) (b : Str)
    (hc : WfCommand c) (hh : WfHeaders h) (hb : nulChar ∉ b) :
    parseFrames (encodeWire c h b) =
      [{ command := c, headers := trimHeaders h, body := b }] := by
  rw [encodeWire_structure]
  rw [parseFrames_single _ ?hnul]
  · exact parseRaw_encoded c h b hc hh
  case hnul =>
    obtain ⟨hcne, hcnl, hcnul, hctrim⟩ := hc
    have : nulChar ∉ headerA c h := by
      refine not_mem_joinNL _ (by decide) ?_
      intro p hp
      rcases List.mem_cons.mp hp with rfl | hp
      · exact hcnul
      · obtain ⟨q, hq, rfl⟩ := List.mem_map.mp hp
        obtain ⟨hq1, hq2, hq3, hq4, hq5, hq6⟩ := hh q hq
        simp only [headerLine, List.mem_append, List.mem_cons]
        rintro (hin | hin | hin)
        · exact hq4 hin
        · exact absurd hin (by decide)
        · exact hq6 hin
    simp only [List.mem_append, List.mem_cons]
    rintro (hin | hin | hin | hin)
    · exact this hin
    · exact absurd hin (by decide)
    · exact absurd hin (by decide)
    · exact hb hin

/-! ## Bodies of frames decoded from arbitrary raw segments -/

theorem parseRaw_cases (frames : List Frame) (raw : Str) :
    parseRaw frames raw = frames ∨
      ∃ cmd hdrs, parseRaw frames raw =
        frames ++ [{ command := cmd, headers := hdrs,
                     body := joinNN (splitNN raw).tail }] := by
  unfold parseRaw
  by_cases h1 : raw = []
  · left; simp [h1]
  rw [if_neg h1]
  by_cases h2 : raw = ['\n']
  · left; simp [h2]
  rw [if_neg h2]
  by_cases h3 : (splitChar '\n' ((splitNN raw).headD [])).filter
      (fun l => decide (l ≠ [])) = []
  · left
    simp only [if_pos h3]
  by_cases h4 : jsTrim (((splitChar '\n' ((splitNN raw).headD [])).filter
      (fun l => decide (l ≠ []))).headD []) = []
  · left
    simp only [if_neg h3]
    rw [if_pos h4]
  · right
    refine ⟨jsTrim (((splitChar '\n' ((splitNN raw).headD [])).filter
        (fun l => decide (l ≠ []))).headD []),
      buildHeaders (((splitChar '\n' ((splitNN raw).headD [])).filter
        (fun l => decide (l ≠ []))).tail), ?_⟩
    simp only [if_neg h3]
    rw [if_neg h4]

theorem mem_parseRaw {frames : List Frame} {raw : Str} {F : Frame}
    (h : F ∈ parseRaw frames raw) :
    F ∈ frames ∨ F.body = joinNN (splitNN raw).tail := by
  rcases parseRaw_cases frames raw with hcase | ⟨cmd, hdrs, hcase⟩
  · rw [hcase] at h
    exact Or.inl h
  · rw [hcase, List.mem_append] at h
    rcases h with h | h
    · exact Or.inl h
    · simp only [List.mem_singleton] at h
      subst h
      exact Or.inr rfl

theorem body_small (s : Str) :
    joinNN (splitNN s).tail = [] ∨
      (joinNN (splitNN s).tail).length + 2 ≤ s.length := by
  cases hs : splitNN s with
  | nil => exact absurd hs (splitNN_ne_nil s)
  | cons p0 t0 =>
    cases t0 with
    | nil => left; simp [joinNN]
    | cons z t1 =>
      right
      have hj := joinNN_splitNN s
      rw [hs, joinNN_cons _ _ (by simp)] at hj
      have hlen := congrArg List.length hj
      simp only [List.length_append, List.length_cons] at hlen
      simp only [List.tail_cons]
      omega

/-! ## Further fan-out helpers -/

theorem mem_fanout_fst {uuid : Nat → Str} {d b : Str} {pairs : List (Conn × Str)}
    {ctr : Nat} {e : Conn × Frame} (he : e ∈ fanout uuid d b pairs ctr) :
    ∃ p ∈ pairs, e.1 = p.1 := by
  induction pairs generalizing ctr with
  | nil => simp [fanout] at he
  | cons p rest ih =>
    simp only [fanout, List.mem_cons] at he
    rcases he with rfl | he
    · exact ⟨p, by simp⟩
    · obtain ⟨q, hq, hqe⟩ := ih he
      exact ⟨q, by simp [hq], hqe⟩

theorem mem_openPairs_isOpen {isOpen : Conn → Bool} {dm : List (Conn × List Str)}
    {p : Conn × Str} (hp : p ∈ openPairs isOpen dm) : isOpen p.1 = true := by
  unfold openPairs at hp
  rw [List.mem_flatten] at hp
  obtain ⟨l, hl, hpl⟩ := hp
  rw [List.mem_map] at hl
  obtain ⟨entry, hentry, rfl⟩ := hl
  by_cases hop : isOpen entry.1 = true
  · rw [if_pos hop] at hpl
    rw [List.mem_map] at hpl
    obtain ⟨subId, hsub, rfl⟩ := hpl
    exact hop
  · rw [if_neg hop] at hpl
    simp at hpl

theorem openPairs_all {isOpen : Conn → Bool} (h : ∀ c, isOpen c = true)
    (dm : List (Conn × List Str)) : openPairs isOpen dm = allPairs dm := by
  unfold openPairs allPairs
  refine congrArg List.flatten (List.map_congr_left ?_)
  intro entry _
  rw [h entry.1]
  simp

theorem broadcast_all_open (uuid : Nat → Str) {isOpen : Conn → Bool}
    (h : ∀ c, isOpen c = true) (st : Registry) (d b : Str) (ctr : Nat) :
    broadcast uuid isOpen st d b ctr = sockBroadcast uuid st d b ctr := by
  rw [broadcast_eq_fanout, sockBroadcast_eq_fanout, openPairs_all h]

theorem uuidModel_injective : Function.Injective uuidModel := by
  intro a b h
  have := congrArg List.length h
  simpa [uuidModel] using this

/-! ## Claim C3: encode/decode round trip -/

/-- C3 (counterexample): the claim as stated fails.  With command `"A"`,
header list `[("k", "x\ny")]` (key non-empty and newline-free, value
non-empty) and body `""` (no NUL) — all conditions the claim imposes —
decoding the encoding yields the header mapping `{k: "x"}`, not the trimmed
original `{k: "x\ny"}` (interior newlines survive `trim`), so the decoded
frame's header mapping does not equal the original post-trim. -/
theorem c3_roundtrip_counterexample :
    parseFrames (encodeWire (S "A") [(S "k", S "x\ny")] []) =
      [{ command := S "A", headers := [(S "k", S "x")], body := [] }] ∧
    trimHeaders [(S "k", S "x\ny")] = [(S "k", S "x\ny")] ∧
    parseFrames (encodeWire (S "A") [(S "k", S "x\ny")] []) ≠
      [{ command := S "A", headers := trimHeaders [(S "k", S "x\ny")],
         body := [] }] := by decide

/-- C3 (amended): for every command that is non-empty, newline-free,
NUL-free and trim-fixed, every header mapping with non-empty keys free of
newline, colon and NUL and values free of newline and NUL, and every body
without NUL, `Decode(Encode(c,h,b))` yields exactly one frame with command
`c`, the header mapping equal to `h` with keys and values trimmed
(last-write-wins), and body `b`. -/
theorem c3_roundtrip_amended (c : Str) (h : List (Str × Str)) (b : Str)
    (hc : WfCommand c) (hh : WfHeaders h) (hb : nulChar ∉ b) :
    parseFrames (encodeWire c h b) =
      [{ command := c, headers := trimHeaders h, body := b }] :=
  decode_encode c h b hc hh hb

theorem c3_roundtrip_witness :
    WfCommand (S "SEND") ∧ WfHeaders [(S "destination", S "news"), (S " k ", S " v:w ")] ∧
    nulChar ∉ S "He\nllo" ∧
    parseFrames (encodeWire (S "SEND")
        [(S "destination", S "news"), (S " k ", S " v:w ")] (S "He\nllo")) =
      [{ command := S "SEND",
         headers := trimHeaders [(S "destination", S "news"), (S " k ", S " v:w ")],
         body := S "He\nllo" }] :=
  ⟨by decide, by decide, by decide,
    c3_roundtrip_amended (S "SEND") [(S "destination", S "news"), (S " k ", S " v:w ")]
      (S "He\nllo") (by decide) (by decide) (by decide)⟩

/-! ## Claim C4: broadcast fan-out -/

/-- C4: `Broadcast(d, body)` emits exactly one MESSAGE frame per
`(connection, subId)` pair registered under `d` whose connection is open
(in index order, one frame per subscription id, so a connection holding two
ids receives two frames), carrying headers `subscription = subId`,
`destination = d` and a freshly drawn message-id, with the given body; and
when the message-id generator is injective (the model of `randomUUID`), the
emitted message-id values are pairwise distinct. -/
theorem c4_broadcast_fanout (uuid : Nat → Str) (isOpen : Conn → Bool)
    (st : Registry) (d body : Str) (ctr : Nat) :
    broadcast uuid isOpen st d body ctr =
      fanout uuid d body
        (openPairs isOpen ((mget st.subscribersByDestination d).getD [])) ctr ∧
    (Function.Injective uuid →
      (messageIds (broadcast uuid isOpen st d body ctr)).Nodup) := by
  refine ⟨broadcast_eq_fanout uuid isOpen st d body ctr, fun hinj => ?_⟩
  rw [broadcast_eq_fanout]
  exact nodup_messageIds_fanout uuid hinj d body _ ctr

theorem c4_broadcast_fanout_witness :
    broadcast uuidModel (fun _ => true)
        (addSubscription (addSubscription emptyRegistry 0 (S "s1") (S "d"))
          0 (S "s2") (S "d")) (S "d") (S "hi") 0 =
      fanout uuidModel (S "d") (S "hi")
        (openPairs (fun _ => true)
          ((mget (addSubscription (addSubscription emptyRegistry 0 (S "s1") (S "d"))
            0 (S "s2") (S "d")).subscribersByDestination (S "d")).getD [])) 0 ∧
    (messageIds (broadcast uuidModel (fun _ => true)
        (addSubscription (addSubscription emptyRegistry 0 (S "s1") (S "d"))
          0 (S "s2") (S "d")) (S "d") (S "hi") 0)).Nodup := by
  have h := c4_broadcast_fanout uuidModel (fun _ => true)
    (addSubscription (addSubscription emptyRegistry 0 (S "s1") (S "d"))
      0 (S "s2") (S "d")) (S "d") (S "hi") 0
  exact ⟨h.1, h.2 uuidModel_injective⟩

/-! ## Claim C5: SUBSCRIBE with missing headers -/

/-- C5: handling a SUBSCRIBE frame whose `id` or `destination` header is
missing or empty on an open connection sends back exactly one ERROR frame
(message header plus explanatory body), leaves the registry untouched, and
does not close the connection. -/
theorem c5_subscribe_missing_headers (uuid : Nat → Str) (isOpen : Conn → Bool)
    (st : Registry) (ws : Conn) (hdrs : List (Str × Str)) (body : Str) (ctr : Nat)
    (hopen : isOpen ws = true)
    (hmiss : falsy (mget hdrs (S "id")) = true ∨
      falsy (mget hdrs (S "destination")) = true) :
    handleFrame uuid isOpen st ws
        { command := S "SUBSCRIBE", headers := hdrs, body := body } ctr =
      (st, [(ws, { command := S "ERROR",
                   headers := [(S "message",
                     S "Subscription requires id and destination")],
                   body := S "Missing id or destination header" })],
       false, ctr) := by
  simp only [handleFrame]
  rw [if_neg (by decide)]
  simp only [if_true]
  rw [show (falsy (mget hdrs (S "id")) || falsy (mget hdrs (S "destination"))) = true from by
    rcases hmiss with hm | hm
    · simp [hm]
    · simp [hm]]
  simp [sendFrame, hopen]

theorem c5_subscribe_missing_headers_witness :
    handleFrame (fun _ => []) (fun _ => true) emptyRegistry 0
        { command := S "SUBSCRIBE", headers := [], body := [] } 0 =
      (emptyRegistry,
       [(0, { command := S "ERROR",
              headers := [(S "message",
                S "Subscription requires id and destination")],
              body := S "Missing id or destination header" })],
       false, 0) :=
  c5_subscribe_missing_headers (fun _ => []) (fun _ => true) emptyRegistry 0 [] [] 0
    rfl (Or.inl (by decide))

/-! ## Claim C7: open-state check before writing -/

/-- C7 (counterexample): the claim fails for the SockJS binding it cites.
In a registry where connection 0 subscribed to `"d"`, with every transport
closed, the SockJS `broadcast` still writes one MESSAGE frame to
connection 0 — it performs no open-state check (its `sendFrame` calls
`conn.send` unconditionally). -/
theorem c7_open_check_counterexample :
    (fun (_ : Conn) => false) 0 = false ∧
    sockBroadcast (fun _ => []) (addSubscription emptyRegistry 0 (S "s") (S "d"))
        (S "d") (S "x") 0 =
      [(0, { command := S "MESSAGE",
             headers := [(S "subscription", S "s"), (S "destination", S "d"),
               (S "message-id", [])],
             body := S "x" })] := by decide

/-- C7 (amended): the native-WebSocket `broadcast` checks the open state
and skips closed subscribers — no emission targets a closed connection,
and the emissions are exactly one frame per open pair — while the SockJS
`broadcast` performs no open-state check and writes one frame per
registered pair regardless of transport state. -/
theorem c7_open_check_amended (uuid : Nat → Str) (isOpen : Conn → Bool)
    (st : Registry) (d body : Str) (ctr : Nat) :
    (∀ c, isOpen c = false →
      ∀ e ∈ broadcast uuid isOpen st d body ctr, e.1 ≠ c) ∧
    broadcast uuid isOpen st d body ctr =
      fanout uuid d body
        (openPairs isOpen ((mget st.subscribersByDestination d).getD [])) ctr ∧
    sockBroadcast uuid st d body ctr =
      fanout uuid d body
        (allPairs ((mget st.subscribersByDestination d).getD [])) ctr := by
  refine ⟨?_, broadcast_eq_fanout uuid isOpen st d body ctr,
    sockBroadcast_eq_fanout uuid st d body ctr⟩
  intro c hc e he
  rw [broadcast_eq_fanout] at he
  obtain ⟨p, hp, hep⟩ := mem_fanout_fst he
  intro hec
  have := mem_openPairs_isOpen hp
  rw [← hep, hec, hc] at this
  exact Bool.false_ne_true this

theorem c7_open_check_amended_witness :
    (∀ c, (fun x => decide (x = 1)) c = false →
      ∀ e ∈ broadcast uuidModel (fun x => decide (x = 1))
        (addSubscription (addSubscription emptyRegistry 0 (S "s") (S "d"))
          1 (S "t") (S "d")) (S "d") (S "x") 0, e.1 ≠ c) ∧
    broadcast uuidModel (fun x => decide (x = 1))
        (addSubscription (addSubscription emptyRegistry 0 (S "s") (S "d"))
          1 (S "t") (S "d")) (S "d") (S "x") 0 =
      fanout uuidModel (S "d") (S "x")
        (openPairs (fun x => decide (x = 1))
          ((mget (addSubscription (addSubscription emptyRegistry 0 (S "s") (S "d"))
            1 (S "t") (S "d")).subscribersByDestination (S "d")).getD [])) 0 ∧
    sockBroadcast uuidModel
        (addSubscription (addSubscription emptyRegistry 0 (S "s") (S "d"))
          1 (S "t") (S "d")) (S "d") (S "x") 0 =
      fanout uuidModel (S "d") (S "x")
        (allPairs ((mget (addSubscription (addSubscription emptyRegistry 0 (S "s") (S "d"))
          1 (S "t") (S "d")).subscribersByDestination (S "d")).getD [])) 0 :=
  c7_open_check_amended uuidModel (fun x => decide (x = 1))
    (addSubscription (addSubscription emptyRegistry 0 (S "s") (S "d"))
      1 (S "t") (S "d")) (S "d") (S "x") 0

/-! ## Claim C8: broadcast to a destination with no subscribers -/

/-- C8: broadcasting to a destination with no entry in the destination
index emits no frame (in both bindings), and a SEND dispatch never mutates
the registry. -/
theorem c8_no_subscriber_broadcast (uuid : Nat → Str) (isOpen : Conn → Bool)
    (st : Registry) (d body : Str) (ctr : Nat)
    (h : mget st.subscribersByDestination d = none) :
    broadcast uuid isOpen st d body ctr = [] ∧
    sockBroadcast uuid st d body ctr = [] ∧
    (∀ ws hdrs b2 c2,
      (handleFrame uuid isOpen st ws
        { command := S "SEND", headers := hdrs, body := b2 } c2).1 = st) := by
  refine ⟨?_, ?_, ?_⟩
  · unfold broadcast
    rw [h]
  · unfold sockBroadcast
    rw [h]
  · intro ws hdrs b2 c2
    simp only [handleFrame]
    rw [if_neg (by decide), if_neg (by decide), if_neg (by decide)]
    simp only [if_true]
    by_cases hf : falsy (mget hdrs (S "destination")) = true
    · rw [if_pos hf]
    · rw [if_neg hf]

theorem c8_no_subscriber_broadcast_witness :
    broadcast uuidModel (fun _ => true) emptyRegistry (S "empty/topic") (S "x") 0 = [] ∧
    sockBroadcast uuidModel emptyRegistry (S "empty/topic") (S "x") 0 = [] ∧
    (∀ ws hdrs b2 c2,
      (handleFrame uuidModel (fun _ => true) emptyRegistry ws
        { command := S "SEND", headers := hdrs, body := b2 } c2).1 = emptyRegistry) :=
  c8_no_subscriber_broadcast uuidModel (fun _ => true) emptyRegistry
    (S "empty/topic") (S "x") 0 rfl

/-! ## Claim C9: native vs SockJS binding -/

/-- C9 (counterexample): the two bindings do not emit the same outbound
frames for every registry state.  A CONNECT frame handled while the target
transport is closed produces no emission in the native binding (the
`readyState` guard in its `sendFrame`) but one CONNECTED write in the
SockJS binding (whose `sendFrame` writes unconditionally). -/
theorem c9_duality_counterexample :
    handleFrame (fun _ => []) (fun _ => false) emptyRegistry 0
        { command := S "CONNECT", headers := [], body := [] } 0 ≠
      sockHandleFrame (fun _ => []) emptyRegistry 0
        { command := S "CONNECT", headers := [], body := [] } 0 := by decide

/-- C9 (amended): the two bindings share the decoder and the registry
mutations verbatim — their `parseFrames` agree on every chunk and their
dispatchers compute the same registry for every frame — and their
dispatchers agree completely (same emissions, same close flag) whenever
every transport is open; they differ only on closed transports, where the
native binding suppresses writes and the SockJS binding writes anyway. -/
theorem c9_duality_amended (uuid : Nat → Str) (isOpen : Conn → Bool) :
    (∀ chunk, sockParseFrames chunk = parseFrames chunk) ∧
    (∀ st ws subId d, sockAddSubscription st ws subId d = addSubscription st ws subId d) ∧
    (∀ st ws subId, sockRemoveSubscription st ws subId = removeSubscription st ws subId) ∧
    (∀ st ws, sockCleanupConnection st ws = cleanupConnection st ws) ∧
    (∀ st ws f ctr,
      (sockHandleFrame uuid st ws f ctr).1 = (handleFrame uuid isOpen st ws f ctr).1) ∧
    ((∀ c, isOpen c = true) →
      ∀ st ws f ctr, handleFrame uuid isOpen st ws f ctr = sockHandleFrame uuid st ws f ctr) := by
  refine ⟨fun _ => rfl, fun _ _ _ _ => rfl, fun _ _ _ => rfl, fun _ _ => rfl, ?_, ?_⟩
  · intro st ws f ctr
    unfold handleFrame sockHandleFrame
    simp [show @sockAddSubscription = @addSubscription from rfl,
      show @sockRemoveSubscription = @removeSubscription from rfl,
      show @sockCleanupConnection = @cleanupConnection from rfl,
      apply_ite Prod.fst]
  · intro hopen st ws f ctr
    unfold handleFrame sockHandleFrame
    simp [show @sockAddSubscription = @addSubscription from rfl,
      show @sockRemoveSubscription = @removeSubscription from rfl,
      show @sockCleanupConnection = @cleanupConnection from rfl,
      broadcast_all_open uuid hopen, sendFrame, sockSendFrame, hopen ws]

theorem c9_duality_amended_witness :
    (∀ chunk, sockParseFrames chunk = parseFrames chunk) ∧
    (∀ st ws subId d, sockAddSubscription st ws subId d = addSubscription st ws subId d) ∧
    (∀ st ws subId, sockRemoveSubscription st ws subId = removeSubscription st ws subId) ∧
    (∀ st ws, sockCleanupConnection st ws = cleanupConnection st ws) ∧
    (∀ st ws f ctr,
      (sockHandleFrame uuidModel st ws f ctr).1 =
        (handleFrame uuidModel (fun _ => true) st ws f ctr).1) ∧
    (∀ st ws f ctr,
      handleFrame uuidModel (fun _ => true) st ws f ctr =
        sockHandleFrame uuidModel st ws f ctr) := by
  have h := c9_duality_amended uuidModel (fun _ => true)
  exact ⟨h.1, h.2.1, h.2.2.1, h.2.2.2.1, h.2.2.2.2.1,
    h.2.2.2.2.2 (fun _ => rfl)⟩

/-! ## Claim C10: frames split across two deliveries -/

/-- C10 (counterexample): the claim as stated fails.  The well-formed
encoded frame `"A\n\nB\0"` split at the interior point just before the
terminating NUL gives two non-empty chunks `"A\n\nB"` and `"\0"`, yet the
first chunk still decodes to the original frame (the decoder treats a
NUL-free trailing segment as a complete frame), so a frame equal to the
original does appear in the output of one of the two calls. -/
theorem c10_split_counterexample :
    S "A\n\nB" ++ [nulChar] = encodeWire (S "A") [] (S "B") ∧
    S "A\n\nB" ≠ [] ∧ [nulChar] ≠ ([] : Str) ∧
    parseFrames (encodeWire (S "A") [] (S "B")) =
      [{ command := S "A", headers := [], body := S "B" }] ∧
    parseFrames (S "A\n\nB") =
      [{ command := S "A", headers := [], body := S "B" }] := by decide

/-- C10 (amended): for a well-formed frame with a non-empty body, splitting
the encoding anywhere strictly inside the body region (so that the first
chunk carries the whole header block and a proper prefix of the body) loses
the frame: concatenated delivery decodes to exactly the original frame, but
neither chunk alone decodes to it — the decoder keeps no state across
deliveries, so the first chunk yields a truncated body and the second chunk
cannot reconstruct a body as long as the original.  (Splits elsewhere can
still succeed, e.g. just before the terminating NUL.) -/
theorem c10_split_amended (c : Str) (h : List (Str × Str)) (b : Str) (j : Nat)
    (hc : WfCommand c) (hh : WfHeaders h) (hb : nulChar ∉ b)
    (hbne : b ≠ []) (hj : j < b.length) :
    (headerA c h ++ '\n' :: '\n' :: b.take j) ++ (b.drop j ++ [nulChar]) =
      encodeWire c h b ∧
    parseFrames (encodeWire c h b) =
      [{ command := c, headers := trimHeaders h, body := b }] ∧
    { command := c, headers := trimHeaders h, body := b } ∉
      parseFrames (headerA c h ++ '\n' :: '\n' :: b.take j) ∧
    { command := c, headers := trimHeaders h, body := b } ∉
      parseFrames (b.drop j ++ [nulChar]) := by
  obtain ⟨hcne, hcnl, hcnul, hctrim⟩ := hc
  have hpieces : ∀ p ∈ c :: h.map headerLine, p ≠ [] ∧ '\n' ∉ p := by
    intro p hp
    rcases List.mem_cons.mp hp with rfl | hp
    · exact ⟨hcne, hcnl⟩
    · obtain ⟨q, hq, rfl⟩ := List.mem_map.mp hp
      obtain ⟨hq1, hq2, hq3, hq4, hq5, hq6⟩ := hh q hq
      refine ⟨by simp [headerLine], ?_⟩
      simp only [headerLine, List.mem_append, List.mem_cons]
      rintro (hin | hin | hin)
      · exact hq2 hin
      · exact absurd hin (by decide)
      · exact hq5 hin
  have hAnul : nulChar ∉ headerA c h := by
    refine not_mem_joinNL _ (by decide) ?_
    intro p hp
    rcases List.mem_cons.mp hp with rfl | hp
    · exact hcnul
    · obtain ⟨q, hq, rfl⟩ := List.mem_map.mp hp
      obtain ⟨hq1, hq2, hq3, hq4, hq5, hq6⟩ := hh q hq
      simp only [headerLine, List.mem_append, List.mem_cons]
      rintro (hin | hin | hin)
      · exact hq4 hin
      · exact absurd hin (by decide)
      · exact hq6 hin
  obtain ⟨hsafe, x, t, hxt, hx⟩ := joinNL_shape _ (by simp) hpieces
  have hxt' : headerA c h = x :: t := hxt
  refine ⟨?_, decode_encode c h b ⟨hcne, hcnl, hcnul, hctrim⟩ hh hb, ?_, ?_⟩
  · rw [encodeWire_structure]
    have hsplit : List.take j b ++ (List.drop j b ++ [nulChar]) = b ++ [nulChar] := by
      rw [← List.append_assoc, List.take_append_drop]
    simp only [List.append_assoc, List.cons_append]
    rw [hsplit]
  · -- the first chunk decodes to a frame with a truncated body
    have hnul1 : nulChar ∉ headerA c h ++ '\n' :: '\n' :: b.take j := by
      simp only [List.mem_append, List.mem_cons]
      rintro (hin | hin | hin | hin)
      · exact hAnul hin
      · exact absurd hin (by decide)
      · exact absurd hin (by decide)
      · exact hb (List.mem_of_mem_take hin)
    have hne1 : headerA c h ++ '\n' :: '\n' :: b.take j ≠ [] := by
      rw [hxt']; simp
    rw [parseFrames_nul_free hne1 hnul1]
    intro hmem
    rcases mem_parseRaw hmem with hmem | hbody
    · simp at hmem
    · rw [show headerA c h = joinNL (c :: h.map headerLine) from rfl,
        splitNN_append _ hsafe, List.tail_cons, joinNN_splitNN] at hbody
      have : b.length = (b.take j).length := congrArg List.length hbody
      rw [List.length_take] at this
      omega
  · -- the second chunk decodes to at most a frame with a shorter body
    have hnul2 : nulChar ∉ b.drop j := fun hin => hb (List.mem_of_mem_drop hin)
    rw [parseFrames_single _ hnul2]
    intro hmem
    rcases mem_parseRaw hmem with hmem | hbody
    · simp at hmem
    · have hb2 : b = joinNN (splitNN (b.drop j)).tail := hbody
      rcases body_small (b.drop j) with hsmall | hsmall
      · rw [hsmall] at hb2
        exact hbne hb2
      · rw [← hb2] at hsmall
        have hdl : (b.drop j).length = b.length - j := by simp
        omega

theorem c10_split_amended_witness :
    WfCommand (S "A") ∧ WfHeaders [(S "k", S "v")] ∧ nulChar ∉ S "BC" ∧
    S "BC" ≠ [] ∧ 1 < (S "BC").length ∧
    ((headerA (S "A") [(S "k", S "v")] ++ '\n' :: '\n' :: (S "BC").take 1) ++
        ((S "BC").drop 1 ++ [nulChar]) =
      encodeWire (S "A") [(S "k", S "v")] (S "BC") ∧
    parseFrames (encodeWire (S "A") [(S "k", S "v")] (S "BC")) =
      [{ command := S "A", headers := trimHeaders [(S "k", S "v")], body := S "BC" }] ∧
    { command := S "A", headers := trimHeaders [(S "k", S "v")], body := S "BC" } ∉
      parseFrames (headerA (S "A") [(S "k", S "v")] ++ '\n' :: '\n' :: (S "BC").take 1) ∧
    { command := S "A", headers := trimHeaders [(S "k", S "v")], body := S "BC" } ∉
      parseFrames ((S "BC").drop 1 ++ [nulChar])) :=
  ⟨by decide, by decide, by decide, by decide, by decide,
    c10_split_amended (S "A") [(S "k", S "v")] (S "BC") 1
      (by decide) (by decide) (by decide) (by decide) (by decide)⟩

/-! ## Invariant preservation: addSubscription -/

theorem addSubscription_inv {st : Registry} (hInv : RegistryInv st)
    (ws : Conn) (subId destination : Str)
    (hfresh : ∀ cm d0, mget st.subscriptionsByConn ws = some cm →
      mget cm subId = some d0 → d0 = destination) :
    RegistryInv (addSubscription st ws subId destination) := by
  obtain ⟨⟨hk1, hk2, hk3, hk4⟩, hfwd, hbwd, hI2, hI3⟩ := hInv
  have hcmnd : (mkeys ((mget st.subscriptionsByConn ws).getD [])).Nodup := by
    cases hg : mget st.subscriptionsByConn ws with
    | none => simp
    | some c => simpa using hk2 ws c hg
  have hdmnd : (mkeys ((mget st.subscribersByDestination destination).getD [])).Nodup := by
    cases hg : mget st.subscribersByDestination destination with
    | none => simp
    | some dmx => simpa using (hk4 destination dmx hg).1
  have hssnd : ((mget ((mget st.subscribersByDestination destination).getD []) ws).getD
      ([] : List Str)).Nodup := by
    cases hg : mget st.subscribersByDestination destination with
    | none => simp
    | some dmx =>
      simp only [Option.getD_some]
      cases hg2 : mget dmx ws with
      | none => simp
      | some ssx => simpa using (hk4 destination dmx hg).2 ws ssx hg2
  unfold addSubscription
  refine ⟨⟨?_, ?_, ?_, ?_⟩, ?_, ?_, ?_, ?_⟩
  · -- connection-index keys nodup
    exact nodup_mkeys_mset hk1 ws _
  · -- inner connection maps keys nodup
    intro ws' cm' hget
    rw [mget_mset] at hget
    by_cases hww : ws = ws'
    · rw [if_pos hww] at hget
      obtain rfl := Option.some.inj hget
      exact nodup_mkeys_mset hcmnd subId destination
    · rw [if_neg hww] at hget
      exact hk2 ws' cm' hget
  · -- destination-index keys nodup
    exact nodup_mkeys_mset hk3 destination _
  · -- inner destination maps and sets nodup
    intro d' dm' hget
    rw [mget_mset] at hget
    by_cases hdd : destination = d'
    · rw [if_pos hdd] at hget
      obtain rfl := Option.some.inj hget
      constructor
      · exact nodup_mkeys_mset hdmnd ws _
      · intro ws' ss' hget2
        rw [mget_mset] at hget2
        by_cases hww : ws = ws'
        · rw [if_pos hww] at hget2
          obtain rfl := Option.some.inj hget2
          exact nodup_sadd hssnd subId
        · rw [if_neg hww] at hget2
          subst hdd
          cases hg : mget st.subscribersByDestination destination with
          | none => rw [hg] at hget2; simp at hget2
          | some dmx =>
            rw [hg] at hget2
            simp only [Option.getD_some] at hget2
            exact (hk4 destination dmx hg).2 ws' ss' hget2
    · rw [if_neg hdd] at hget
      exact hk4 d' dm' hget
  · -- I1 forward
    intro ws' cm' s' d' hget1 hget2
    rw [mget_mset] at hget1
    by_cases hww : ws = ws'
    · subst hww
      rw [if_pos rfl] at hget1
      obtain rfl := Option.some.inj hget1
      rw [mget_mset] at hget2
      by_cases hsub : subId = s'
      · subst hsub
        rw [if_pos rfl] at hget2
        obtain rfl := Option.some.inj hget2
        refine ⟨_, _, mget_mset_self _ _ _, mget_mset_self _ _ _, ?_⟩
        exact mem_sadd.mpr (Or.inr rfl)
      · rw [if_neg hsub] at hget2
        cases hgc : mget st.subscriptionsByConn ws with
        | none => rw [hgc] at hget2; simp at hget2
        | some c =>
          rw [hgc] at hget2
          simp only [Option.getD_some] at hget2
          obtain ⟨dmx, ssx, hdmx, hssx, hmemx⟩ := hfwd ws c s' d' hgc hget2
          by_cases hdd : destination = d'
          · subst hdd
            refine ⟨_, _, mget_mset_self _ _ _, mget_mset_self _ _ _, ?_⟩
            rw [hdmx]
            simp only [Option.getD_some]
            rw [hssx]
            simp only [Option.getD_some]
            exact mem_sadd.mpr (Or.inl hmemx)
          · refine ⟨dmx, ssx, ?_, hssx, hmemx⟩
            rw [mget_mset_ne _ _ _ hdd]
            exact hdmx
    · rw [if_neg hww] at hget1
      obtain ⟨dmx, ssx, hdmx, hssx, hmemx⟩ := hfwd ws' cm' s' d' hget1 hget2
      by_cases hdd : destination = d'
      · subst hdd
        refine ⟨_, ssx, mget_mset_self _ _ _, ?_, hmemx⟩
        rw [mget_mset_ne _ _ _ hww]
        rw [hdmx]
        simp only [Option.getD_some]
        exact hssx
      · refine ⟨dmx, ssx, ?_, hssx, hmemx⟩
        rw [mget_mset_ne _ _ _ hdd]
        exact hdmx
  · -- I1 backward
    intro d' dm' ws' ss' s' hget1 hget2 hmem
    rw [mget_mset] at hget1
    by_cases hdd : destination = d'
    · subst hdd
      rw [if_pos rfl] at hget1
      obtain rfl := Option.some.inj hget1
      rw [mget_mset] at hget2
      by_cases hww : ws = ws'
      · subst hww
        rw [if_pos rfl] at hget2
        obtain rfl := Option.some.inj hget2
        rcases mem_sadd.mp hmem with hmem | rfl
        · -- s' was already registered under destination for ws
          cases hg : mget st.subscribersByDestination destination with
          | none => rw [hg] at hmem; simp at hmem
          | some dmx =>
            rw [hg] at hmem
            simp only [Option.getD_some] at hmem
            cases hg2 : mget dmx ws with
            | none => rw [hg2] at hmem; simp at hmem
            | some ssx =>
              rw [hg2] at hmem
              simp only [Option.getD_some] at hmem
              obtain ⟨cmx, hcmx, hcmxs⟩ := hbwd destination dmx ws ssx s' hg hg2 hmem
              refine ⟨mset ((mget st.subscriptionsByConn ws).getD []) subId destination,
                mget_mset_self _ _ _, ?_⟩
              rw [mget_mset]
              by_cases hsub : subId = s'
              · rw [if_pos hsub]
              · rw [if_neg hsub]
                rw [hcmx]
                simpa using hcmxs
        · -- s' is the newly added subId
          exact ⟨_, mget_mset_self _ _ _, mget_mset_self _ _ _⟩
      · rw [if_neg hww] at hget2
        cases hg : mget st.subscribersByDestination destination with
        | none => rw [hg] at hget2; simp at hget2
        | some dmx =>
          rw [hg] at hget2
          simp only [Option.getD_some] at hget2
          obtain ⟨cmx, hcmx, hcmxs⟩ := hbwd destination dmx ws' ss' s' hg hget2 hmem
          refine ⟨cmx, ?_, hcmxs⟩
          rw [mget_mset_ne _ _ _ hww]
          exact hcmx
    · rw [if_neg hdd] at hget1
      obtain ⟨cmx, hcmx, hcmxs⟩ := hbwd d' dm' ws' ss' s' hget1 hget2 hmem
      by_cases hww : ws = ws'
      · subst hww
        refine ⟨mset ((mget st.subscriptionsByConn ws).getD []) subId destination,
          mget_mset_self _ _ _, ?_⟩
        rw [mget_mset]
        by_cases hsub : subId = s'
        · subst hsub
          rw [hcmx] at hfresh
          have := hfresh cmx d' rfl (by simpa using hcmxs)
          exact absurd this.symm hdd
        · rw [if_neg hsub]
          rw [hcmx]
          simpa using hcmxs
      · refine ⟨cmx, ?_, hcmxs⟩
        rw [mget_mset_ne _ _ _ hww]
        exact hcmx
  · -- I2
    intro d' dm' hget
    rw [mget_mset] at hget
    by_cases hdd : destination = d'
    · rw [if_pos hdd] at hget
      obtain rfl := Option.some.inj hget
      refine ⟨mset_ne_nil _ _ _, ?_⟩
      intro ws' ss' hget2
      rw [mget_mset] at hget2
      by_cases hww : ws = ws'
      · rw [if_pos hww] at hget2
        obtain rfl := Option.some.inj hget2
        exact sadd_ne_nil _ _
      · rw [if_neg hww] at hget2
        subst hdd
        cases hg : mget st.subscribersByDestination destination with
        | none => rw [hg] at hget2; simp at hget2
        | some dmx =>
          rw [hg] at hget2
          simp only [Option.getD_some] at hget2
          exact (hI2 destination dmx hg).2 ws' ss' hget2
    · rw [if_neg hdd] at hget
      exact hI2 d' dm' hget
  · -- I3
    intro ws' cm' hget
    rw [mget_mset] at hget
    by_cases hww : ws = ws'
    · rw [if_pos hww] at hget
      obtain rfl := Option.some.inj hget
      exact mset_ne_nil _ _ _
    · rw [if_neg hww] at hget
      exact hI3 ws' cm' hget

/-! ## Invariant preservation: removeSubscription -/

theorem removeSubscription_inv {st : Registry} (hInv : RegistryInv st)
    (ws : Conn) (subId : Str) :
    RegistryInv (removeSubscription st ws subId) := by
  have hInv' := hInv
  obtain ⟨⟨hk1, hk2, hk3, hk4⟩, hfwd, hbwd, hI2, hI3⟩ := hInv'
  cases hgc : mget st.subscriptionsByConn ws with
  | none =>
    rw [show removeSubscription st ws subId = st from by
      simp only [removeSubscription, hgc]]
    exact hInv
  | some connSubs =>
  cases hgs : mget connSubs subId with
  | none =>
    rw [show removeSubscription st ws subId = st from by
      simp only [removeSubscription, hgc, hgs]]
    exact hInv
  | some destination =>
  by_cases hdnil : destination = []
  · rw [show removeSubscription st ws subId = st from by
      simp only [removeSubscription, hgc, hgs, if_pos hdnil]]
    exact hInv
  obtain ⟨dm, ss, hdm, hss, hmem⟩ := hfwd ws connSubs subId destination hgc hgs
  have hcsnd : (mkeys connSubs).Nodup := hk2 ws connSubs hgc
  have hdmnd : (mkeys dm).Nodup := (hk4 destination dm hdm).1
  have hssnd : ss.Nodup := (hk4 destination dm hdm).2 ws ss hss
  have hstate : removeSubscription st ws subId =
      { subscriptionsByConn :=
          if mdel connSubs subId = [] then mdel st.subscriptionsByConn ws
          else mset st.subscriptionsByConn ws (mdel connSubs subId)
        subscribersByDestination :=
          if (if sdel ss subId = [] then mdel dm ws
              else mset dm ws (sdel ss subId)) = []
          then mdel st.subscribersByDestination destination
          else mset st.subscribersByDestination destination
            (if sdel ss subId = [] then mdel dm ws
             else mset dm ws (sdel ss subId)) } := by
    simp only [removeSubscription, hgc, hgs, if_neg hdnil, hdm, hss]
  rw [hstate]
  have hSBC : ∀ ws', mget (if mdel connSubs subId = [] then mdel st.subscriptionsByConn ws
      else mset st.subscriptionsByConn ws (mdel connSubs subId)) ws' =
      if ws = ws' then (if mdel connSubs subId = [] then none
        else some (mdel connSubs subId))
      else mget st.subscriptionsByConn ws' := by
    intro ws'
    by_cases hnil : mdel connSubs subId = []
    · rw [if_pos hnil, mget_mdel hk1]
      by_cases hww : ws = ws'
      · rw [if_pos hww, if_pos hww, if_pos hnil]
      · rw [if_neg hww, if_neg hww]
    · rw [if_neg hnil, mget_mset]
      by_cases hww : ws = ws'
      · rw [if_pos hww, if_pos hww, if_neg hnil]
      · rw [if_neg hww, if_neg hww]
  have hDS : ∀ ws', mget (if sdel ss subId = [] then mdel dm ws
      else mset dm ws (sdel ss subId)) ws' =
      if ws = ws' then (if sdel ss subId = [] then none else some (sdel ss subId))
      else mget dm ws' := by
    intro ws'
    by_cases hnil : sdel ss subId = []
    · rw [if_pos hnil, mget_mdel hdmnd]
      by_cases hww : ws = ws'
      · rw [if_pos hww, if_pos hww, if_pos hnil]
      · rw [if_neg hww, if_neg hww]
    · rw [if_neg hnil, mget_mset]
      by_cases hww : ws = ws'
      · rw [if_pos hww, if_pos hww, if_neg hnil]
      · rw [if_neg hww, if_neg hww]
  have hSBD : ∀ d', mget (if (if sdel ss subId = [] then mdel dm ws
        else mset dm ws (sdel ss subId)) = []
      then mdel st.subscribersByDestination destination
      else mset st.subscribersByDestination destination
        (if sdel ss subId = [] then mdel dm ws else mset dm ws (sdel ss subId))) d' =
      if destination = d'
      then (if (if sdel ss subId = [] then mdel dm ws
          else mset dm ws (sdel ss subId)) = [] then none
        else some (if sdel ss subId = [] then mdel dm ws
          else mset dm ws (sdel ss subId)))
      else mget st.subscribersByDestination d' := by
    intro d'
    by_cases hnil : (if sdel ss subId = [] then mdel dm ws
        else mset dm ws (sdel ss subId)) = []
    · rw [if_pos hnil, mget_mdel hk3]
      by_cases hdd : destination = d'
      · rw [if_pos hdd, if_pos hdd, if_pos hnil]
      · rw [if_neg hdd, if_neg hdd]
    · rw [if_neg hnil, mget_mset]
      by_cases hdd : destination = d'
      · rw [if_pos hdd, if_pos hdd, if_neg hnil]
      · rw [if_neg hdd, if_neg hdd]
  refine ⟨⟨?_, ?_, ?_, ?_⟩, ?_, ?_, ?_, ?_⟩
  · -- connection-index keys nodup
    by_cases hnil : mdel connSubs subId = []
    · rw [if_pos hnil]
      exact nodup_mkeys_mdel hk1 ws
    · rw [if_neg hnil]
      exact nodup_mkeys_mset hk1 ws _
  · -- inner connection maps keys nodup
    intro ws' cm' hget
    rw [hSBC] at hget
    by_cases hww : ws = ws'
    · rw [if_pos hww] at hget
      by_cases hnil : mdel connSubs subId = []
      · rw [if_pos hnil] at hget
        exact Option.noConfusion hget
      · rw [if_neg hnil] at hget
        obtain rfl := Option.some.inj hget
        exact nodup_mkeys_mdel hcsnd subId
    · rw [if_neg hww] at hget
      exact hk2 ws' cm' hget
  · -- destination-index keys nodup
    by_cases hnil : (if sdel ss subId = [] then mdel dm ws
        else mset dm ws (sdel ss subId)) = []
    · rw [if_pos hnil]
      exact nodup_mkeys_mdel hk3 destination
    · rw [if_neg hnil]
      exact nodup_mkeys_mset hk3 destination _
  · -- inner destination maps and sets nodup
    intro d' dm' hget
    rw [hSBD] at hget
    by_cases hdd : destination = d'
    · rw [if_pos hdd] at hget
      by_cases hnil : (if sdel ss subId = [] then mdel dm ws
          else mset dm ws (sdel ss subId)) = []
      · rw [if_pos hnil] at hget
        exact Option.noConfusion hget
      · rw [if_neg hnil] at hget
        obtain rfl := Option.some.inj hget
        constructor
        · by_cases hnil2 : sdel ss subId = []
          · rw [if_pos hnil2]
            exact nodup_mkeys_mdel hdmnd ws
          · rw [if_neg hnil2]
            exact nodup_mkeys_mset hdmnd ws _
        · intro ws' ss' hget2
          rw [hDS] at hget2
          by_cases hww : ws = ws'
          · rw [if_pos hww] at hget2
            by_cases hnil2 : sdel ss subId = []
            · rw [if_pos hnil2] at hget2
              exact Option.noConfusion hget2
            · rw [if_neg hnil2] at hget2
              obtain rfl := Option.some.inj hget2
              exact nodup_sdel hssnd subId
          · rw [if_neg hww] at hget2
            exact (hk4 destination dm hdm).2 ws' ss' hget2
    · rw [if_neg hdd] at hget
      exact hk4 d' dm' hget
  · -- I1 forward
    intro ws' cm' s' d' hget1 hget2
    rw [hSBC] at hget1
    by_cases hww : ws = ws'
    · subst hww
      rw [if_pos rfl] at hget1
      by_cases hnil : mdel connSubs subId = []
      · rw [if_pos hnil] at hget1
        exact Option.noConfusion hget1
      rw [if_neg hnil] at hget1
      obtain rfl := Option.some.inj hget1
      rw [mget_mdel hcsnd] at hget2
      by_cases hsub : subId = s'
      · rw [if_pos hsub] at hget2
        exact Option.noConfusion hget2
      rw [if_neg hsub] at hget2
      obtain ⟨dmx, ssx, hdmx, hssx, hmemx⟩ := hfwd ws connSubs s' d' hgc hget2
      by_cases hdd : destination = d'
      · subst hdd
        obtain rfl : dm = dmx := Option.some.inj (hdm ▸ hdmx)
        obtain rfl : ss = ssx := Option.some.inj (hss ▸ hssx)
        have hsmem : s' ∈ sdel ss subId :=
          mem_sdel_of_ne hmemx (fun hh => hsub hh.symm)
        have hsnil : sdel ss subId ≠ [] := by
          intro hh
          rw [hh] at hsmem
          simp at hsmem
        have hdsnil : (if sdel ss subId = [] then mdel dm ws
            else mset dm ws (sdel ss subId)) ≠ [] := by
          rw [if_neg hsnil]
          exact mset_ne_nil _ _ _
        refine ⟨(if sdel ss subId = [] then mdel dm ws
            else mset dm ws (sdel ss subId)), sdel ss subId, ?_, ?_, hsmem⟩
        · rw [hSBD, if_pos rfl, if_neg hdsnil]
        · rw [hDS, if_pos rfl, if_neg hsnil]
      · refine ⟨dmx, ssx, ?_, hssx, hmemx⟩
        rw [hSBD, if_neg hdd]
        exact hdmx
    · rw [if_neg hww] at hget1
      obtain ⟨dmx, ssx, hdmx, hssx, hmemx⟩ := hfwd ws' cm' s' d' hget1 hget2
      by_cases hdd : destination = d'
      · subst hdd
        obtain rfl : dm = dmx := Option.some.inj (hdm ▸ hdmx)
        have hlook : mget (if sdel ss subId = [] then mdel dm ws
            else mset dm ws (sdel ss subId)) ws' = some ssx := by
          rw [hDS, if_neg hww]
          exact hssx
        have hdsnil : (if sdel ss subId = [] then mdel dm ws
            else mset dm ws (sdel ss subId)) ≠ [] := by
          intro hh
          rw [hh] at hlook
          exact Option.noConfusion hlook
        refine ⟨(if sdel ss subId = [] then mdel dm ws
            else mset dm ws (sdel ss subId)), ssx, ?_, hlook, hmemx⟩
        rw [hSBD, if_pos rfl, if_neg hdsnil]
      · refine ⟨dmx, ssx, ?_, hssx, hmemx⟩
        rw [hSBD, if_neg hdd]
        exact hdmx
  · -- I1 backward
    intro d' dm'' ws' ss'' s' hget1 hget2 hmem2
    rw [hSBD] at hget1
    by_cases hdd : destination = d'
    · subst hdd
      rw [if_pos rfl] at hget1
      by_cases hnil : (if sdel ss subId = [] then mdel dm ws
          else mset dm ws (sdel ss subId)) = []
      · rw [if_pos hnil] at hget1
        exact Option.noConfusion hget1
      rw [if_neg hnil] at hget1
      obtain rfl := Option.some.inj hget1
      rw [hDS] at hget2
      by_cases hww : ws = ws'
      · subst hww
        rw [if_pos rfl] at hget2
        by_cases hnil2 : sdel ss subId = []
        · rw [if_pos hnil2] at hget2
          exact Option.noConfusion hget2
        rw [if_neg hnil2] at hget2
        obtain rfl := Option.some.inj hget2
        obtain ⟨hs'ss, hs'sub⟩ := (mem_sdel_iff hssnd).mp hmem2
        obtain ⟨cmx, hcmx, hcmxs⟩ := hbwd destination dm ws ss s' hdm hss hs'ss
        obtain rfl : connSubs = cmx := Option.some.inj (hgc ▸ hcmx)
        have hlook2 : mget (mdel connSubs subId) s' = some destination := by
          rw [mget_mdel hcsnd, if_neg (fun hh => hs'sub hh.symm)]
          exact hcmxs
        have hmnil : mdel connSubs subId ≠ [] := by
          intro hh
          rw [hh] at hlook2
          exact Option.noConfusion hlook2
        refine ⟨mdel connSubs subId, ?_, hlook2⟩
        rw [hSBC, if_pos rfl, if_neg hmnil]
      · rw [if_neg hww] at hget2
        obtain ⟨cmx, hcmx, hcmxs⟩ := hbwd destination dm ws' ss'' s' hdm hget2 hmem2
        refine ⟨cmx, ?_, hcmxs⟩
        rw [hSBC, if_neg hww]
        exact hcmx
    · rw [if_neg hdd] at hget1
      obtain ⟨cmx, hcmx, hcmxs⟩ := hbwd d' dm'' ws' ss'' s' hget1 hget2 hmem2
      by_cases hww : ws = ws'
      · subst hww
        obtain rfl : connSubs = cmx := Option.some.inj (hgc ▸ hcmx)
        have hsub : s' ≠ subId := by
          intro hh
          subst hh
          obtain rfl := Option.some.inj (hgs ▸ hcmxs)
          exact hdd rfl
        have hlook2 : mget (mdel connSubs subId) s' = some d' := by
          rw [mget_mdel hcsnd, if_neg (fun hh => hsub hh.symm)]
          exact hcmxs
        have hmnil : mdel connSubs subId ≠ [] := by
          intro hh
          rw [hh] at hlook2
          exact Option.noConfusion hlook2
        refine ⟨mdel connSubs subId, ?_, hlook2⟩
        rw [hSBC, if_pos rfl, if_neg hmnil]
      · refine ⟨cmx, ?_, hcmxs⟩
        rw [hSBC, if_neg hww]
        exact hcmx
  · -- I2
    intro d' dm'' hget
    rw [hSBD] at hget
    by_cases hdd : destination = d'
    · rw [if_pos hdd] at hget
      by_cases hnil : (if sdel ss subId = [] then mdel dm ws
          else mset dm ws (sdel ss subId)) = []
      · rw [if_pos hnil] at hget
        exact Option.noConfusion hget
      rw [if_neg hnil] at hget
      obtain rfl := Option.some.inj hget
      refine ⟨hnil, ?_⟩
      intro ws' ss' hget2
      rw [hDS] at hget2
      by_cases hww : ws = ws'
      · rw [if_pos hww] at hget2
        by_cases hnil2 : sdel ss subId = []
        · rw [if_pos hnil2] at hget2
          exact Option.noConfusion hget2
        · rw [if_neg hnil2] at hget2
          obtain rfl := Option.some.inj hget2
          exact hnil2
      · rw [if_neg hww] at hget2
        subst hdd
        exact (hI2 destination dm hdm).2 ws' ss' hget2
    · rw [if_neg hdd] at hget
      exact hI2 d' dm'' hget
  · -- I3
    intro ws' cm' hget
    rw [hSBC] at hget
    by_cases hww : ws = ws'
    · rw [if_pos hww] at hget
      by_cases hnil : mdel connSubs subId = []
      · rw [if_pos hnil] at hget
        exact Option.noConfusion hget
      · rw [if_neg hnil] at hget
        obtain rfl := Option.some.inj hget
        exact hnil
    · rw [if_neg hww] at hget
      exact hI3 ws' cm' hget

theorem cleanup_fold (ws : Conn) (L : List (Str × Str)) :
    ∀ (sbd0 sbd : List (Str × List (Conn × List Str))),
    DestOK sbd → AgreesExcept ws sbd0 sbd → DestNonempty sbd → CoveredBy ws sbd L →
    DestOK (L.foldl (cleanupStep ws) sbd) ∧
    AgreesExcept ws sbd0 (L.foldl (cleanupStep ws) sbd) ∧
    DestNonempty (L.foldl (cleanupStep ws) sbd) ∧
    (∀ d dm, mget (L.foldl (cleanupStep ws) sbd) d = some dm → mget dm ws = none) := by
  induction L with
  | nil =>
    intro sbd0 sbd ha hb hc hd
    simp only [List.foldl_nil]
    refine ⟨ha, hb, hc, ?_⟩
    intro d dm hd1
    cases hgw : mget dm ws with
    | none => rfl
    | some ss =>
      have hne := (hc d dm hd1).2 ws ss hgw
      cases ss with
      | nil => exact absurd rfl hne
      | cons s ss' =>
        have hmm := hd d dm (s :: ss') hd1 hgw s (by simp)
        exact Option.noConfusion hmm
  | cons p rest ih =>
    intro sbd0 sbd ha hb hc hd
    obtain ⟨s0, dd⟩ := p
    rw [List.foldl_cons]
    cases hgd : mget sbd dd with
    | none =>
      have hstep : cleanupStep ws sbd (s0, dd) = sbd := by
        simp only [cleanupStep, hgd]
      rw [hstep]
      refine ih sbd0 sbd ha hb hc ?_
      intro d dm ss hd1 hd2 s hs
      have hmm := hd d dm ss hd1 hd2 s hs
      rw [show mget ((s0, dd) :: rest) s =
          if s0 = s then some dd else mget rest s from rfl] at hmm
      by_cases hss0 : s0 = s
      · rw [if_pos hss0] at hmm
        obtain rfl := Option.some.inj hmm
        rw [hgd] at hd1
        exact Option.noConfusion hd1
      · rw [if_neg hss0] at hmm
        exact hmm
    | some dsub =>
      cases hgw : mget dsub ws with
      | none =>
        have hdsubne : dsub ≠ [] := (hc dd dsub hgd).1
        have hstep : cleanupStep ws sbd (s0, dd) = sbd := by
          simp only [cleanupStep, hgd, hgw]
          rw [if_neg hdsubne]
          exact mset_eq_self hgd
        rw [hstep]
        refine ih sbd0 sbd ha hb hc ?_
        intro d dm ss hd1 hd2 s hs
        have hmm := hd d dm ss hd1 hd2 s hs
        rw [show mget ((s0, dd) :: rest) s =
            if s0 = s then some dd else mget rest s from rfl] at hmm
        by_cases hss0 : s0 = s
        · rw [if_pos hss0] at hmm
          obtain rfl := Option.some.inj hmm
          obtain rfl : dsub = dm := Option.some.inj (hgd ▸ hd1)
          rw [hgw] at hd2
          exact Option.noConfusion hd2
        · rw [if_neg hss0] at hmm
          exact hmm
      | some subSet =>
        have hdnd : (mkeys dsub).Nodup := (ha.2 dd dsub hgd).1
        have hsnd : subSet.Nodup := (ha.2 dd dsub hgd).2 ws subSet hgw
        have hstep : cleanupStep ws sbd (s0, dd) =
            (if (if sdel subSet s0 = [] then mdel dsub ws
                else mset dsub ws (sdel subSet s0)) = []
             then mdel sbd dd
             else mset sbd dd (if sdel subSet s0 = [] then mdel dsub ws
                else mset dsub ws (sdel subSet s0))) := by
          simp only [cleanupStep, hgd, hgw]
        rw [hstep]
        have hDS : ∀ ws', mget (if sdel subSet s0 = [] then mdel dsub ws
            else mset dsub ws (sdel subSet s0)) ws' =
            if ws = ws' then (if sdel subSet s0 = [] then none
              else some (sdel subSet s0))
            else mget dsub ws' := by
          intro ws'
          by_cases hnil : sdel subSet s0 = []
          · rw [if_pos hnil, mget_mdel hdnd]
            by_cases hww : ws = ws'
            · rw [if_pos hww, if_pos hww, if_pos hnil]
            · rw [if_neg hww, if_neg hww]
          · rw [if_neg hnil, mget_mset]
            by_cases hww : ws = ws'
            · rw [if_pos hww, if_pos hww, if_neg hnil]
            · rw [if_neg hww, if_neg hww]
        have hNEW : ∀ d', mget (if (if sdel subSet s0 = [] then mdel dsub ws
              else mset dsub ws (sdel subSet s0)) = []
            then mdel sbd dd
            else mset sbd dd (if sdel subSet s0 = [] then mdel dsub ws
              else mset dsub ws (sdel subSet s0))) d' =
            if dd = d' then (if (if sdel subSet s0 = [] then mdel dsub ws
                else mset dsub ws (sdel subSet s0)) = [] then none
              else some (if sdel subSet s0 = [] then mdel dsub ws
                else mset dsub ws (sdel subSet s0)))
            else mget sbd d' := by
          intro d'
          by_cases hnil : (if sdel subSet s0 = [] then mdel dsub ws
              else mset dsub ws (sdel subSet s0)) = []
          · rw [if_pos hnil, mget_mdel ha.1]
            by_cases hdd' : dd = d'
            · rw [if_pos hdd', if_pos hdd', if_pos hnil]
            · rw [if_neg hdd', if_neg hdd']
          · rw [if_neg hnil, mget_mset]
            by_cases hdd' : dd = d'
            · rw [if_pos hdd', if_pos hdd', if_neg hnil]
            · rw [if_neg hdd', if_neg hdd']
        refine ih sbd0 _ ⟨?_, ?_⟩ ?_ ?_ ?_
        · -- keys of the new destination index
          by_cases hnil : (if sdel subSet s0 = [] then mdel dsub ws
              else mset dsub ws (sdel subSet s0)) = []
          · rw [if_pos hnil]
            exact nodup_mkeys_mdel ha.1 dd
          · rw [if_neg hnil]
            exact nodup_mkeys_mset ha.1 dd _
        · -- inner nodups
          intro d' dm' hget
          rw [hNEW d'] at hget
          by_cases hdd' : dd = d'
          · rw [if_pos hdd'] at hget
            by_cases hnil : (if sdel subSet s0 = [] then mdel dsub ws
                else mset dsub ws (sdel subSet s0)) = []
            · rw [if_pos hnil] at hget
              exact Option.noConfusion hget
            rw [if_neg hnil] at hget
            obtain rfl := Option.some.inj hget
            constructor
            · by_cases hnil2 : sdel subSet s0 = []
              · rw [if_pos hnil2]
                exact nodup_mkeys_mdel hdnd ws
              · rw [if_neg hnil2]
                exact nodup_mkeys_mset hdnd ws _
            · intro w ss' hget2
              rw [hDS w] at hget2
              by_cases hww : ws = w
              · rw [if_pos hww] at hget2
                by_cases hnil2 : sdel subSet s0 = []
                · rw [if_pos hnil2] at hget2
                  exact Option.noConfusion hget2
                · rw [if_neg hnil2] at hget2
                  obtain rfl := Option.some.inj hget2
                  exact nodup_sdel hsnd s0
              · rw [if_neg hww] at hget2
                exact (ha.2 dd dsub hgd).2 w ss' hget2
          · rw [if_neg hdd'] at hget
            exact ha.2 d' dm' hget
        · -- agreement for other connections
          intro d ws' hww
          rw [hNEW d]
          by_cases hdd' : dd = d
          · subst hdd'
            by_cases hnil : (if sdel subSet s0 = [] then mdel dsub ws
                else mset dsub ws (sdel subSet s0)) = []
            · rw [if_pos rfl, if_pos hnil]
              have hsd : sdel subSet s0 = [] := by
                by_contra hsd
                rw [if_neg hsd] at hnil
                exact mset_ne_nil _ _ _ hnil
              have hmd : mdel dsub ws = [] := by
                rw [if_pos hsd] at hnil
                exact hnil
              have hnone : mget dsub ws' = none :=
                mget_of_mdel_eq_nil hmd hww
              rw [← hb dd ws' hww, hgd]
              simp [hnone]
            · rw [if_pos rfl, if_neg hnil]
              rw [← hb dd ws' hww, hgd]
              simp only [Option.some_bind]
              rw [hDS ws', if_neg hww]
          · rw [if_neg hdd']
            exact hb d ws' hww
        · -- no empty entries
          intro d dm' hget
          rw [hNEW d] at hget
          by_cases hdd' : dd = d
          · rw [if_pos hdd'] at hget
            by_cases hnil : (if sdel subSet s0 = [] then mdel dsub ws
                else mset dsub ws (sdel subSet s0)) = []
            · rw [if_pos hnil] at hget
              exact Option.noConfusion hget
            rw [if_neg hnil] at hget
            obtain rfl := Option.some.inj hget
            refine ⟨hnil, ?_⟩
            intro w ss' hget2
            rw [hDS w] at hget2
            by_cases hww : ws = w
            · rw [if_pos hww] at hget2
              by_cases hnil2 : sdel subSet s0 = []
              · rw [if_pos hnil2] at hget2
                exact Option.noConfusion hget2
              · rw [if_neg hnil2] at hget2
                obtain rfl := Option.some.inj hget2
                exact hnil2
            · rw [if_neg hww] at hget2
              exact (hc dd dsub hgd).2 w ss' hget2
          · rw [if_neg hdd'] at hget
            exact hc d dm' hget
        · -- coverage by the remaining list
          intro d dm' ss' hget hget2 s hs
          rw [hNEW d] at hget
          by_cases hdd' : dd = d
          · subst hdd'
            by_cases hnil : (if sdel subSet s0 = [] then mdel dsub ws
                else mset dsub ws (sdel subSet s0)) = []
            · rw [if_pos rfl, if_pos hnil] at hget
              exact Option.noConfusion hget
            rw [if_pos rfl, if_neg hnil] at hget
            obtain rfl := Option.some.inj hget
            rw [hDS ws] at hget2
            rw [if_pos rfl] at hget2
            by_cases hnil2 : sdel subSet s0 = []
            · rw [if_pos hnil2] at hget2
              exact Option.noConfusion hget2
            rw [if_neg hnil2] at hget2
            obtain rfl := Option.some.inj hget2
            obtain ⟨hs1, hs2⟩ := (mem_sdel_iff hsnd).mp hs
            have hmm := hd dd dsub subSet hgd hgw s hs1
            rw [show mget ((s0, dd) :: rest) s =
                if s0 = s then some dd else mget rest s from rfl] at hmm
            rw [if_neg (fun hh => hs2 hh.symm)] at hmm
            exact hmm
          · rw [if_neg hdd'] at hget
            have hmm := hd d dm' ss' hget hget2 s hs
            rw [show mget ((s0, dd) :: rest) s =
                if s0 = s then some dd else mget rest s from rfl] at hmm
            by_cases hss0 : s0 = s
            · rw [if_pos hss0] at hmm
              obtain rfl := Option.some.inj hmm
              exact absurd rfl hdd'
            · rw [if_neg hss0] at hmm
              exact hmm

theorem cleanupConnection_inv {st : Registry} (hInv : RegistryInv st) (ws : Conn) :
    RegistryInv (cleanupConnection st ws) ∧
    mget (cleanupConnection st ws).subscriptionsByConn ws = none ∧
    (∀ d dm, mget (cleanupConnection st ws).subscribersByDestination d = some dm →
      mget dm ws = none) := by
  have hInv' := hInv
  obtain ⟨⟨hk1, hk2, hk3, hk4⟩, hfwd, hbwd, hI2, hI3⟩ := hInv'
  cases hgc : mget st.subscriptionsByConn ws with
  | none =>
    have hstate : cleanupConnection st ws = st := by
      simp only [cleanupConnection, hgc]
    rw [hstate]
    refine ⟨hInv, hgc, ?_⟩
    intro d dm hget
    cases hgw : mget dm ws with
    | none => rfl
    | some ss =>
      have hne := (hI2 d dm hget).2 ws ss hgw
      cases ss with
      | nil => exact absurd rfl hne
      | cons s ss' =>
        obtain ⟨cmx, hcmx, -⟩ := hbwd d dm ws (s :: ss') s hget hgw (by simp)
        rw [hgc] at hcmx
        exact Option.noConfusion hcmx
  | some connSubs =>
    have hstate : cleanupConnection st ws =
        { subscriptionsByConn := mdel st.subscriptionsByConn ws
          subscribersByDestination :=
            connSubs.foldl (cleanupStep ws) st.subscribersByDestination } := by
      simp only [cleanupConnection, hgc]
    rw [hstate]
    obtain ⟨hA, hB, hC, hD⟩ := cleanup_fold ws connSubs
      st.subscribersByDestination st.subscribersByDestination
      ⟨hk3, hk4⟩ (fun d ws' _ => rfl) hI2
      (fun d dm ss hd1 hd2 s hs => by
        obtain ⟨cmx, hcmx, hcmxs⟩ := hbwd d dm ws ss s hd1 hd2 hs
        obtain rfl : connSubs = cmx := Option.some.inj (hgc ▸ hcmx)
        exact hcmxs)
    refine ⟨⟨⟨?_, ?_, hA.1, hA.2⟩, ?_, ?_, hC, ?_⟩, ?_, hD⟩
    · exact nodup_mkeys_mdel hk1 ws
    · intro ws' cm' hget
      rw [mget_mdel hk1] at hget
      by_cases hww : ws = ws'
      · rw [if_pos hww] at hget
        exact Option.noConfusion hget
      · rw [if_neg hww] at hget
        exact hk2 ws' cm' hget
    · -- I1 forward
      intro ws' cm' s' d' hget1 hget2
      rw [mget_mdel hk1] at hget1
      by_cases hww : ws = ws'
      · rw [if_pos hww] at hget1
        exact Option.noConfusion hget1
      rw [if_neg hww] at hget1
      obtain ⟨dmx, ssx, hdmx, hssx, hmemx⟩ := hfwd ws' cm' s' d' hget1 hget2
      have hbind := hB d' ws' hww
      rw [hdmx] at hbind
      simp only [Option.some_bind] at hbind
      rw [hssx] at hbind
      obtain ⟨dmy, hdmy, hssy⟩ := Option.bind_eq_some.mp hbind
      exact ⟨dmy, ssx, hdmy, hssy, hmemx⟩
    · -- I1 backward
      intro d' dm' ws' ss' s' hget1 hget2 hmem
      by_cases hww : ws = ws'
      · subst hww
        rw [hD d' dm' hget1] at hget2
        exact Option.noConfusion hget2
      have hbind := hB d' ws' hww
      rw [hget1] at hbind
      simp only [Option.some_bind] at hbind
      rw [hget2] at hbind
      obtain ⟨dmy, hdmy, hssy⟩ := Option.bind_eq_some.mp hbind.symm
      obtain ⟨cmx, hcmx, hcmxs⟩ := hbwd d' dmy ws' ss' s' hdmy hssy hmem
      refine ⟨cmx, ?_, hcmxs⟩
      rw [mget_mdel hk1, if_neg hww]
      exact hcmx
    · -- I3
      intro ws' cm' hget
      rw [mget_mdel hk1] at hget
      by_cases hww : ws = ws'
      · rw [if_pos hww] at hget
        exact Option.noConfusion hget
      · rw [if_neg hww] at hget
        exact hI3 ws' cm' hget
    · rw [mget_mdel hk1, if_pos rfl]

theorem emptyRegistry_inv : RegistryInv emptyRegistry := by
  refine ⟨⟨?_, ?_, ?_, ?_⟩, ?_, ?_, ?_, ?_⟩
  · simp [emptyRegistry]
  · intro ws cm h
    exact Option.noConfusion h
  · simp [emptyRegistry]
  · intro d dm h
    exact Option.noConfusion h
  · intro ws cm s d h
    exact absurd h (by simp [emptyRegistry])
  · intro d dm ws ss s h
    exact absurd h (by simp [emptyRegistry])
  · intro d dm h
    exact absurd h (by simp [emptyRegistry])
  · intro ws cm h
    exact absurd h (by simp [emptyRegistry])

/-- Any reachable registry state satisfies all invariants. -/
theorem reach_inv {st : Registry} (h : Reach st) : RegistryInv st := by
  induction h with
  | empty => exact emptyRegistry_inv
  | add ws subId destination hr hfresh ih =>
    exact addSubscription_inv ih ws subId destination hfresh
  | remove ws subId hr ih =>
    exact removeSubscription_inv ih ws subId
  | cleanup ws hr ih =>
    exact (cleanupConnection_inv ih ws).1

/-! ## Claim C1: re-subscribing an existing id to a new destination -/

/-- C1 (counterexample): the claim as stated fails.  Starting from empty
indices, subscribe connection 0 under id `"s"` to `"d1"`, then call
`addSubscription` again for the same pair with `"d2"`.  The claim says the
old destination-index entry is removed first, so `"d1"` no longer lists
`"s"` for connection 0 — but the code performs no such removal: the entry
is still there. -/
theorem c1_resubscribe_counterexample :
    mget (addSubscription (addSubscription emptyRegistry 0 (S "s") (S "d1"))
        0 (S "s") (S "d2")).subscribersByDestination (S "d1") =
      some [(0, [S "s"])] ∧
    mget (addSubscription (addSubscription emptyRegistry 0 (S "s") (S "d1"))
        0 (S "s") (S "d2")).subscriptionsByConn 0 = some [(S "s", S "d2")] ∧
    S "d1" ≠ S "d2" := by decide

/-- C1 (amended): `addSubscription` on a `(connection, subId)` pair already
mapped to a different destination `d1` overwrites the connection-index
mapping to `d2` but does not touch `d1`'s destination-index entry: after
the call `d1` still lists `subId` for the connection, and invariant I1
(backward direction) is broken. -/
theorem c1_resubscribe_amended (st : Registry) (ws : Conn) (subId d1 d2 : Str)
    (cm : List (Str × Str)) (dm : List (Conn × List Str)) (ss : List Str)
    (hcm : mget st.subscriptionsByConn ws = some cm)
    (hcms : mget cm subId = some d1)
    (hdm : mget st.subscribersByDestination d1 = some dm)
    (hss : mget dm ws = some ss) (hmem : subId ∈ ss)
    (hne : d2 ≠ d1) :
    mget (addSubscription st ws subId d2).subscriptionsByConn ws =
      some (mset cm subId d2) ∧
    mget (mset cm subId d2) subId = some d2 ∧
    mget (addSubscription st ws subId d2).subscribersByDestination d1 = some dm ∧
    ¬ I1bwd (addSubscription st ws subId d2) := by
  have hsbc : mget (addSubscription st ws subId d2).subscriptionsByConn ws =
      some (mset cm subId d2) := by
    unfold addSubscription
    rw [hcm]
    simp only [Option.getD_some]
    exact mget_mset_self _ _ _
  have hsbd : mget (addSubscription st ws subId d2).subscribersByDestination d1 =
      some dm := by
    unfold addSubscription
    simp only
    rw [mget_mset_ne _ _ _ hne]
    exact hdm
  refine ⟨hsbc, mget_mset_self _ _ _, hsbd, ?_⟩
  intro hb
  obtain ⟨cmx, hcmx, hcmxs⟩ := hb d1 dm ws ss subId hsbd hss hmem
  rw [hsbc] at hcmx
  obtain rfl := Option.some.inj hcmx
  rw [mget_mset_self] at hcmxs
  exact hne (Option.some.inj hcmxs)

theorem c1_resubscribe_amended_witness :
    mget (addSubscription (addSubscription emptyRegistry 0 (S "s") (S "d1"))
        0 (S "s") (S "d2")).subscriptionsByConn 0 =
      some (mset [(S "s", S "d1")] (S "s") (S "d2")) ∧
    mget (mset [(S "s", S "d1")] (S "s") (S "d2")) (S "s") = some (S "d2") ∧
    mget (addSubscription (addSubscription emptyRegistry 0 (S "s") (S "d1"))
        0 (S "s") (S "d2")).subscribersByDestination (S "d1") =
      some [(0, [S "s"])] ∧
    ¬ I1bwd (addSubscription (addSubscription emptyRegistry 0 (S "s") (S "d1"))
        0 (S "s") (S "d2")) :=
  c1_resubscribe_amended (addSubscription emptyRegistry 0 (S "s") (S "d1"))
    0 (S "s") (S "d1") (S "d2") [(S "s", S "d1")] [(0, [S "s"])] [S "s"]
    (by decide) (by decide) (by decide) (by decide) (by decide) (by decide)

/-! ## Claim C2: the registry invariants -/

/-- C2 (counterexample): the claim as stated fails.  The two-call sequence
`AddSubscription(0, "s", "d1"); AddSubscription(0, "s", "d2")` starting
from empty indices leaves `"d1"`'s destination-index entry listing `"s"`
for connection 0 while the connection index maps the pair to `"d2"`, so
the backward direction of I1 does not hold. -/
theorem c2_invariants_counterexample :
    ¬ I1bwd (addSubscription (addSubscription emptyRegistry 0 (S "s") (S "d1"))
      0 (S "s") (S "d2")) := by
  intro h
  obtain ⟨cm, hcm, hcms⟩ := h (S "d1") [(0, [S "s"])] 0 [S "s"] (S "s")
    (by decide) (by decide) (by decide)
  have hval : mget (addSubscription (addSubscription emptyRegistry 0 (S "s") (S "d1"))
      0 (S "s") (S "d2")).subscriptionsByConn 0 = some [(S "s", S "d2")] := by decide
  rw [hval] at hcm
  obtain rfl := Option.some.inj hcm
  exact absurd hcms (by decide)

/-- C2 (amended): after any sequence of `AddSubscription`,
`RemoveSubscription` and `RemoveAllForConnection` calls starting from empty
indices in which every `AddSubscription` targets a pair that is fresh or
already mapped to the same destination, the registry invariants hold: both
indices have well-formed keys, I1 holds in both directions, a destination
key exists only with at least one registered pair (I2), and a connection
key exists only with at least one subscription (I3). -/
theorem c2_registry_invariants (st : Registry) (h : Reach st) : RegistryInv st :=
  reach_inv h

theorem c2_registry_invariants_witness :
    RegistryInv (cleanupConnection (removeSubscription
      (addSubscription (addSubscription emptyRegistry 0 (S "a") (S "d"))
        1 (S "b") (S "d")) 0 (S "a")) 1) :=
  c2_registry_invariants _
    (Reach.cleanup 1 (Reach.remove 0 (S "a")
      (Reach.add 1 (S "b") (S "d")
        (Reach.add 0 (S "a") (S "d") Reach.empty
          (fun cm d0 h1 _ => Option.noConfusion h1))
        (fun cm d0 h1 _ => Option.noConfusion h1))))

/-! ## Claim C6: cleanup idempotence -/

/-- C6 (counterexample): the claim as stated — that after one
`RemoveAllForConnection(C)` no subscription owned by C remains in either
index, for every registry state — fails on a state the code itself
reaches.  After `AddSubscription(0, "s", "d1"); AddSubscription(0, "s",
"d2")`, a single cleanup of connection 0 still leaves `"d1"`'s entry
listing `"s"` for connection 0 (cleanup walks the connection's
subscription map, which now only names `"d2"`). -/
theorem c6_cleanup_counterexample :
    mget (cleanupConnection (addSubscription (addSubscription emptyRegistry 0
        (S "s") (S "d1")) 0 (S "s") (S "d2")) 0).subscribersByDestination (S "d1") =
      some [(0, [S "s"])] ∧
    mget (cleanupConnection (addSubscription (addSubscription emptyRegistry 0
        (S "s") (S "d1")) 0 (S "s") (S "d2")) 0).subscriptionsByConn 0 = none := by
  decide

/-- C6 (amended): on every registry state satisfying the registry
invariants, one `cleanupConnection(C)` call removes C's key from the
connection index and every subscription of C from the destination index,
and a second call is a no-op returning exactly the same state. -/
theorem c6_cleanup_idempotent (st : Registry) (C : Conn) (hInv : RegistryInv st) :
    mget (cleanupConnection st C).subscriptionsByConn C = none ∧
    (∀ d dm, mget (cleanupConnection st C).subscribersByDestination d = some dm →
      mget dm C = none) ∧
    cleanupConnection (cleanupConnection st C) C = cleanupConnection st C := by
  obtain ⟨hinv', hnone, hdest⟩ := cleanupConnection_inv hInv C
  refine ⟨hnone, hdest, ?_⟩
  generalize hst1 : cleanupConnection st C = st1 at hnone ⊢
  simp only [cleanupConnection, hnone]

theorem c6_cleanup_idempotent_witness :
    mget (cleanupConnection (addSubscription (addSubscription emptyRegistry 0
        (S "a") (S "d1")) 0 (S "b") (S "d2")) 0).subscriptionsByConn 0 = none ∧
    (∀ d dm, mget (cleanupConnection (addSubscription (addSubscription emptyRegistry 0
        (S "a") (S "d1")) 0 (S "b") (S "d2")) 0).subscribersByDestination d = some dm →
      mget dm 0 = none) ∧
    cleanupConnection (cleanupConnection (addSubscription (addSubscription emptyRegistry 0
        (S "a") (S "d1")) 0 (S "b") (S "d2")) 0) 0 =
      cleanupConnection (addSubscription (addSubscription emptyRegistry 0
        (S "a") (S "d1")) 0 (S "b") (S "d2")) 0 :=
  c6_cleanup_idempotent _ 0
    (reach_inv (Reach.add 0 (S "b") (S "d2")
      (Reach.add 0 (S "a") (S "d1") Reach.empty
        (fun cm d0 h1 _ => Option.noConfusion h1))
      (fun cm d0 h1 h2 => by
        rw [show mget (addSubscription emptyRegistry 0 (S "a")
            (S "d1")).subscriptionsByConn 0 = some [(S "a", S "d1")] from rfl] at h1
        obtain rfl := Option.some.inj h1
        exact Option.noConfusion h2)))

